import Mathlib

/-!
Verification development for the dosgato-render rendering tier.

This file gives a shallow embedding of the page/component rendering core of
the repository (src/render.ts, src/registry.ts and the template contract it
drives) and proves properties of that embedding.  The embedding follows the
current render.ts (the version with sibling wiring, the root-error abort and
the mode-aware inheritance splicing).  JavaScript Maps become association
lists with set-overwrites-or-appends semantics, promises become explicit
sequencing (the event loop is single threaded; the awaited loops in the
source are sequential), thrown exceptions become Except values, and the
mutation of hydrated component objects becomes functional updates threaded
through each phase.
-/

/- ===================== Preliminaries ===================== -/

/-- Decimal digit character, mirroring how a JavaScript number interpolates
into a template string (decimal notation). -/
def digitChar10 : Nat → Char
  | 0 => '0'
  | 1 => '1'
  | 2 => '2'
  | 3 => '3'
  | 4 => '4'
  | 5 => '5'
  | 6 => '6'
  | 7 => '7'
  | 8 => '8'
  | 9 => '9'
  | _ => '0'

/-- Most-significant-first decimal digits of a natural number.  The first
argument is fuel, always called with enough of it (natDigits below). -/
def natDigitsGo : Nat → Nat → List Char
  | 0, _ => []
  | fuel + 1, n =>
    if n < 10 then [digitChar10 n]
    else natDigitsGo fuel (n / 10) ++ [digitChar10 (n % 10)]

/-- Decimal digits of a natural number, most significant first. -/
def natDigits (n : Nat) : List Char := natDigitsGo (n + 1) n

/-- Decimal rendering of a natural number, the shallow embedding of a
JavaScript template-string interpolation of a loop index. -/
def natStr (n : Nat) : String := ⟨natDigits n⟩

/-- Numeric value of a decimal digit character (inverse of digitChar10). -/
def charVal : Char → Nat
  | '0' => 0
  | '1' => 1
  | '2' => 2
  | '3' => 3
  | '4' => 4
  | '5' => 5
  | '6' => 6
  | '7' => 7
  | '8' => 8
  | '9' => 9
  | _ => 0

/-- Parse a most-significant-first digit list back to a natural number. -/
def parseDigits (l : List Char) : Nat := l.foldl (fun a c => 10 * a + charVal c) 0

/-- HTML escaping of one character.  Modelled from the htmlEncode helper of
the txstate-utils library used by the source (escapes the five
HTML-significant characters, leaves everything else alone). -/
def htmlEncodeChar (c : Char) : List Char :=
  if c = '&' then "&amp;".data
  else if c = '<' then "&lt;".data
  else if c = '>' then "&gt;".data
  else if c = '"' then "&quot;".data
  else if c = '\'' then "&#39;".data
  else [c]

/-- HTML escaping of a string (txstate-utils htmlEncode, modelled). -/
def htmlEncode (s : String) : String := ⟨s.data.flatMap htmlEncodeChar⟩

/-- A character list free of the path separator character. -/
def dotFree (l : List Char) : Prop := '.' ∉ l

/-- A string free of the path separator character (used as a hypothesis on
declared area names when reasoning about path uniqueness). -/
def dotFreeStr (s : String) : Prop := dotFree s.data

instance (l : List Char) : Decidable (dotFree l) :=
  inferInstanceAs (Decidable ('.' ∉ l))

instance (s : String) : Decidable (dotFreeStr s) :=
  inferInstanceAs (Decidable ('.' ∉ s.data))

/-- A string free of all characters that htmlEncode rewrites. -/
def htmlSafe (s : String) : Prop :=
  ∀ c ∈ s.data, c ≠ '&' ∧ c ≠ '<' ∧ c ≠ '>' ∧ c ≠ '"' ∧ c ≠ '\''

/-- Split a character list at every dot.  This is ghost machinery for the
path-uniqueness proofs: it recovers the dot-separated segments of a
component path. -/
def dotSplit : List Char → List (List Char)
  | [] => [[]]
  | c :: cs =>
    if c = '.' then [] :: dotSplit cs
    else
      match dotSplit cs with
      | [] => [[c]]
      | s :: rest => (c :: s) :: rest

/-- Join segments with dots; inverse of dotSplit. -/
def dotJoin : List (List Char) → List Char
  | [] => []
  | [s] => s
  | s :: rest => s ++ '.' :: dotJoin rest

/-- Dot-separated segments of a string (ghost machinery for path proofs). -/
def tok (s : String) : List (List Char) := dotSplit s.data

/- ===================== Raw component data ===================== -/

mutual
/-- Raw, serializable component data as delivered by the content API:
a template key plus named areas of child component data.  The extra
template-specific fields carried by real ComponentData do not influence
the pipeline and are not modelled. -/
inductive CData where
  | node (templateKey : String) (areas : CDAreas)
/-- The areas object of a raw component: an association of area names to
child lists (JavaScript object, so keys are unique). -/
inductive CDAreas where
  | nil
  | cons (name : String) (children : CDList) (rest : CDAreas)
/-- A list of raw child components. -/
inductive CDList where
  | nil
  | cons (head : CData) (tail : CDList)
end

/-- Template key of a raw component. -/
def CData.templateKey : CData → String
  | .node k _ => k

/-- Areas object of a raw component. -/
def CData.areas : CData → CDAreas
  | .node _ a => a

/-- Property access componentData.areas[key] on the raw areas object
(first match; JavaScript object keys are unique). -/
def CDAreas.lookup : CDAreas → String → Option CDList
  | .nil, _ => none
  | .cons n cs rest, k => if n = k then some cs else CDAreas.lookup rest k

/-- Length of a raw child list. -/
def CDList.length : CDList → Nat
  | .nil => 0
  | .cons _ t => t.length + 1

/-- Convert a plain list to a raw child list (fixture building). -/
def CDList.ofList : List CData → CDList
  | [] => .nil
  | c :: cs => .cons c (CDList.ofList cs)

/- ===================== The template contract ===================== -/

/-- Inheritance registration mode: top, bottom or replace. -/
inductive InheritMode where
  | top
  | bottom
  | replace
deriving DecidableEq, Repr

/-- One call a template makes to the registerInherited callback during its
fetch: the target area, the component data list (possibly absent, mirroring
an undefined argument), the source page id (a single id or one per
component), and the splice mode. -/
structure RegCall where
  area : String
  components : Option (List CData)
  fromPageId : String ⊕ List String
  mode : InheritMode

/-- An inheritance registration record actually pushed by the callback
(the ephemeral registered list of the fetch phase). -/
structure RegEntry where
  area : String
  components : List CData
  fromPageId : String ⊕ List String
  mode : InheritMode

/-- The values a template render function can read: the node's fetched
data, render context, rendered areas (area name to child output strings),
edit mode, assembled head content (page root only) and path. -/
structure RenderEnv where
  fetched : Option String
  renderCtx : Option Nat
  renderedAreas : List (String × List String)
  editMode : Bool
  headContent : Option String
  path : String

/-- The behavior of a registered template class: the capability set the
engine drives (fetch with the registerInherited calls it makes, the
shouldFetchVariation gate, setContext, render, renderVariation, and the
CSS block names it declares).  Fetched data and render context are modelled
as String and Nat (the heading-level counter); failures are Except errors
standing for thrown exceptions / rejected promises. -/
structure Template where
  fetch : Except String String
  registers : List RegCall
  shouldFetchVariation : String → Bool
  setContext : Nat → String → Except String Nat
  render : RenderEnv → Except String String
  renderVariation : String → RenderEnv → Except String String
  cssBlocks : List String

/-- A template that does nothing: fetch succeeds with empty data, no
registrations, always fetches, passes context through, renders nothing. -/
def Template.inert : Template where
  fetch := .ok ""
  registers := []
  shouldFetchVariation := fun _ => true
  setContext := fun c _ => .ok c
  render := fun _ => .ok ""
  renderVariation := fun _ _ => .ok ""
  cssBlocks := []

instance : Inhabited Template := ⟨Template.inert⟩

/-- The registries and template metadata a render consults: the process-wide
pages and components maps of the template registry, and the per-key area
metadata and display name delivered by the content API (api.getTemplates). -/
structure PipeReg where
  components : String → Option Template
  pages : String → Option Template
  meta : String → List String
  metaName : String → String

/- ===================== Hydrated components ===================== -/

/-- The scalar state of one hydrated component: its template (the class it
was instantiated from), template key, dotted path, positional index in its
area, inheritance provenance, whether its editBar/newBar hooks were
overridden to return the empty string during hydration, render-mode flags,
the sticky error flag, fetched data, render context, auto label, and (for
the page root) the assembled head content. -/
structure HInfo where
  tmpl : Template
  templateKey : String
  path : String
  indexInArea : Nat
  inheritedFrom : Option String
  editBarSuppressed : Bool
  newBarSuppressed : Bool
  editMode : Bool
  extension : String
  hadError : Bool
  fetched : Option String
  renderCtx : Option Nat
  autoLabel : String
  headContent : Option String

instance : Inhabited HInfo :=
  ⟨⟨Template.inert, "", "", 0, none, false, false, false, "html", false, none, none, "", none⟩⟩

mutual
/-- A hydrated component: its scalar state plus its areas.  The page root
is a hydrated component whose headContent field may be populated. -/
inductive HComp where
  | node (info : HInfo) (areas : HAreas)
/-- The areas Map of a hydrated component: ordered association of area
names to ordered child lists. -/
inductive HAreas where
  | nil
  | cons (name : String) (children : HList) (rest : HAreas)
/-- An ordered list of hydrated child components. -/
inductive HList where
  | nil
  | cons (head : HComp) (tail : HList)
end

instance : Inhabited HComp := ⟨.node default .nil⟩

/-- Scalar state of a hydrated component. -/
def HComp.info : HComp → HInfo
  | .node i _ => i

/-- Areas of a hydrated component. -/
def HComp.areas : HComp → HAreas
  | .node _ a => a

/-- Replace the indexInArea of a component (the assignment the hydration
loop performs when it pushes a surviving child). -/
def HComp.setIndex : HComp → Nat → HComp
  | .node i a, n => .node { i with indexInArea := n } a

/-- Map.has on the areas of a hydrated component. -/
def HAreas.hasArea : HAreas → String → Bool
  | .nil, _ => false
  | .cons n _ rest, k => n = k || HAreas.hasArea rest k

/-- Map.set on the areas of a hydrated component: overwrite in place when
the key exists, append a new entry otherwise (JavaScript Map semantics). -/
def HAreas.setArea : HAreas → String → HList → HAreas
  | .nil, k, v => .cons k v .nil
  | .cons n cs rest, k, v =>
    if n = k then .cons n v rest else .cons n cs (HAreas.setArea rest k v)

/-- Map.get on the areas, defaulting to the empty list (the source uses the
non-null assertion only where the entry is known to exist). -/
def HAreas.getArea : HAreas → String → HList
  | .nil, _ => .nil
  | .cons n cs rest, k => if n = k then cs else HAreas.getArea rest k

/-- Append a component at the end of a child list (Array.push). -/
def HList.push : HList → HComp → HList
  | .nil, x => .cons x .nil
  | .cons h t, x => .cons h (HList.push t x)

/-- Insert a component at an index, clamping past-the-end indices to an
append: the behavior of Array.splice(i, 0, x). -/
def HList.insertClamped : HList → Nat → HComp → HList
  | .nil, _, x => .cons x .nil
  | l, 0, x => .cons x l
  | .cons h t, n + 1, x => .cons h (HList.insertClamped t n x)

/-- Convert a hydrated child list to a plain list (for stating theorems). -/
def HList.toList : HList → List HComp
  | .nil => []
  | .cons h t => h :: HList.toList t

/- ===================== Hydration ===================== -/

/-- The hydrated state a freshly constructed component starts with
(render.ts hydrateComponent: the constructor call followed by the
inheritedFrom assignment and the conditional editBar/newBar overrides;
recursiveInherit suppresses editBar, any inheritedFrom suppresses newBar). -/
def initInfo (tmpl : Template) (key path : String) (editMode : Bool)
    (inheritedFrom : Option String) (extension : String) (recursiveInherit : Bool) : HInfo where
  tmpl := tmpl
  templateKey := key
  path := path
  indexInArea := 0
  inheritedFrom := inheritedFrom
  editBarSuppressed := recursiveInherit
  newBarSuppressed := inheritedFrom.isSome
  editMode := editMode
  extension := extension
  hadError := false
  fetched := none
  renderCtx := none
  autoLabel := ""
  headContent := none

/-- Assemble the areas Map from the declared area names (in metadata order,
one Map.set per declared name, an empty list when the data has no such
area), consulting the hydrated table. -/
def assembleAreas (names : List String) (table : List (String × HList)) : HAreas :=
  match names with
  | [] => .nil
  | k :: rest =>
    .cons k (((table.lookup k).getD .nil)) (assembleAreas rest table)

mutual
/-- Shallow embedding of render.ts hydrateComponent: look the template key
up in the component registry (returning none, a dropped node, when it is
unregistered), construct the hydrated node, and hydrate its children.
Child areas are assembled from the per-key area metadata below
(hydrateAreasOf); pre is the path prefix for children (the parent path
followed by a dot, or empty at the page root). -/
def hydrateComponent (reg : PipeReg) (d : CData) (path : String) (editMode : Bool)
    (inheritedFrom : Option String) (extension : String) (recursiveInherit : Bool) :
    Option HComp :=
  match d with
  | .node key dareas =>
    match reg.components key with
    | none => none
    | some tmpl =>
      some (.node (initInfo tmpl key path editMode inheritedFrom extension recursiveInherit)
        (assembleAreas (reg.meta key)
          (hydrateTable reg dareas (path ++ ".") editMode inheritedFrom extension)))

/-- Hydrate every area present in the raw data, producing a lookup table
from area name to hydrated children.  The table is then restricted and
reordered by the declared area metadata (assembleAreas): observationally
this equals the source's iteration over the declared names with a data
lookup per name, undeclared data areas being silently dropped. -/
def hydrateTable (reg : PipeReg) (dareas : CDAreas) (pre : String) (editMode : Bool)
    (inheritedFrom : Option String) (extension : String) : List (String × HList) :=
  match dareas with
  | .nil => []
  | .cons k cs rest =>
    (k, hydrateKids reg cs pre k 0 0 editMode inheritedFrom extension) ::
      hydrateTable reg rest pre editMode inheritedFrom extension

/-- Hydrate the children of one area in data order: i is the index in the
raw data (used in the child path), survivors counts the children hydrated
so far (assigned as indexInArea when a child is pushed); children whose
template key is unregistered are dropped and do not advance survivors.
Children of an inherited node are hydrated with recursiveInherit set. -/
def hydrateKids (reg : PipeReg) (cs : CDList) (pre k : String) (i survivors : Nat)
    (editMode : Bool) (inheritedFrom : Option String) (extension : String) : HList :=
  match cs with
  | .nil => .nil
  | .cons c rest =>
    match hydrateComponent reg c (pre ++ "areas." ++ k ++ "." ++ natStr i) editMode
        inheritedFrom extension inheritedFrom.isSome with
    | none => hydrateKids reg rest pre k (i + 1) survivors editMode inheritedFrom extension
    | some h =>
      .cons (h.setIndex survivors)
        (hydrateKids reg rest pre k (i + 1) (survivors + 1) editMode inheritedFrom extension)
end

/-- Shallow embedding of render.ts hydratePage: fail when the page's own
template key has no registered Page (the one hard error of this phase),
otherwise hydrate the root and its declared areas.  Root children paths
have no leading parent segment; the root's own path is empty (the Page
instance of the templating contract carries no path of its own). -/
def hydratePage (reg : PipeReg) (pd : CData) (editMode : Bool) (extension : String) :
    Except String HComp :=
  match pd with
  | .node key dareas =>
    match reg.pages key with
    | none => .error "Unable to render page. Missing template implementation."
    | some tmpl =>
      .ok (.node (initInfo tmpl key "" editMode none extension false)
        (assembleAreas (reg.meta key)
          (hydrateTable reg dareas "" editMode none extension)))

/- ===================== Fetch phase ===================== -/

/-- Shallow embedding of the registerInherited callback installed on each
original component during the fetch phase: push a registration record only
when the components argument is present and non-empty; otherwise leave the
registered list untouched. -/
def registerInherited (registered : List RegEntry) (call : RegCall) : List RegEntry :=
  match call.components with
  | some (c :: cs) => registered ++ [⟨call.area, c :: cs, call.fromPageId, call.mode⟩]
  | _ => registered

/-- The per-component source page id: a lone id is replicated across all
spliced components, an array is indexed (out-of-range indices give none,
mirroring an undefined array element). -/
def fromPageIdAt (f : String ⊕ List String) : Nat → Option String
  | i => match f with
    | .inl s => some s
    | .inr l => l.get? i

mutual
/-- The secondary fetch round the spliced-in components undergo: each node
of a freshly hydrated inherited subtree receives the request collaborators
and its auto label, its registerInherited callback is the disabled no-op
(so its registration calls are ignored), and its fetch is executed in its
own try/catch (fetched on success, the error flag on failure);
shouldFetchVariation is not consulted (the source calls fetch directly in
this round). -/
def extraFetch (reg : PipeReg) : HComp → HComp
  | .node info areas =>
    let a := extraFetchAreas reg areas
    let info := { info with autoLabel := reg.metaName info.templateKey }
    match info.tmpl.fetch with
    | .ok v => .node { info with fetched := some v } a
    | .error _ => .node { info with hadError := true } a

/-- extraFetch over the areas of an inherited subtree. -/
def extraFetchAreas (reg : PipeReg) : HAreas → HAreas
  | .nil => .nil
  | .cons n cs rest => .cons n (extraFetchList reg cs) (extraFetchAreas reg rest)

/-- extraFetch over a child list of an inherited subtree. -/
def extraFetchList (reg : PipeReg) : HList → HList
  | .nil => .nil
  | .cons h t => .cons (extraFetch reg h) (extraFetchList reg t)
end

/-- Splice the components of one registration entry into the target area,
mirroring the source loop: hydrate each component (path literally
"inherited", provenance from fromPageId, recursiveInherit unset on the
splice root), run its secondary fetch round, and insert at the loop index
for mode top (Array.splice) or append otherwise.  Components that fail to
hydrate are skipped but still advance the loop index. -/
def spliceLoop (reg : PipeReg) (editMode : Bool) (extension : String) (area : String)
    (mode : InheritMode) (from0 : String ⊕ List String) :
    List CData → Nat → HAreas → HAreas
  | [], _, a => a
  | d :: rest, i, a =>
    match hydrateComponent reg d "inherited" editMode (fromPageIdAt from0 i) extension false with
    | none => spliceLoop reg editMode extension area mode from0 rest (i + 1) a
    | some h =>
      let h := extraFetch reg h
      let cur := a.getArea area
      let cur := if mode = .top then cur.insertClamped i h else cur.push h
      spliceLoop reg editMode extension area mode from0 rest (i + 1) (a.setArea area cur)

/-- Apply one registration entry: clear (or create) the target area when it
is absent or the mode is replace, then splice the entry's components. -/
def spliceEntry (reg : PipeReg) (editMode : Bool) (extension : String) (e : RegEntry)
    (areas : HAreas) : HAreas :=
  let areas := if !(areas.hasArea e.area) || e.mode = .replace
    then areas.setArea e.area .nil else areas
  spliceLoop reg editMode extension e.area e.mode e.fromPageId e.components 0 areas

/-- Apply all registration entries of one component, in order. -/
def applyRegistered (reg : PipeReg) (editMode : Bool) (extension : String) :
    List RegEntry → HAreas → HAreas
  | [], areas => areas
  | e :: rest, areas =>
    applyRegistered reg editMode extension rest (spliceEntry reg editMode extension e areas)

mutual
/-- Shallow embedding of the fetch phase of render.ts renderPage for one
original component: attach the auto label, run fetch inside the node's
try/catch when shouldFetchVariation allows it (an empty fetched value
otherwise), collect the registration records its registerInherited calls
produce, and splice them in.  A thrown fetch marks only this node's error
flag, leaves its fetched unset, and skips its splicing.  All original
components are processed this way independently (the Promise.all of the
source; their effects touch disjoint nodes, so the concurrent rounds equal
this tree recursion). -/
def fetchComponent (reg : PipeReg) (editMode : Bool) (extension : String) : HComp → HComp
  | .node info areas =>
    let a := fetchAreas reg editMode extension areas
    let info := { info with autoLabel := reg.metaName info.templateKey }
    if info.tmpl.shouldFetchVariation extension then
      match info.tmpl.fetch with
      | .error _ => .node { info with hadError := true } a
      | .ok v =>
        let registered := info.tmpl.registers.foldl registerInherited []
        .node { info with fetched := some v }
          (applyRegistered reg editMode extension registered a)
    else .node { info with fetched := some "" } a

/-- Fetch phase over the areas of the originally hydrated tree. -/
def fetchAreas (reg : PipeReg) (editMode : Bool) (extension : String) : HAreas → HAreas
  | .nil => .nil
  | .cons n cs rest =>
    .cons n (fetchList reg editMode extension cs) (fetchAreas reg editMode extension rest)

/-- Fetch phase over an original child list. -/
def fetchList (reg : PipeReg) (editMode : Bool) (extension : String) : HList → HList
  | .nil => .nil
  | .cons h t =>
    .cons (fetchComponent reg editMode extension h) (fetchList reg editMode extension t)
end

/- ===================== Context phase ===================== -/

mutual
/-- Shallow embedding of render.ts executeSetContext: assign the node's
render context, then walk its areas in order; for each area, unless the
node is (or has become) errored, derive the area context via the node's
setContext on a copy of the context and broadcast it to the area's
children; a thrown setContext marks the node's error flag and leaves the
remaining areas' children unvisited.  The context value is pure here, so
the deep copy the source takes before each call is the identity (the
store-based model of executeSetContext further below captures the
mutation-visibility semantics of that copy). -/
def executeSetContext (renderCtx : Nat) : HComp → HComp
  | .node info areas =>
    let info := { info with renderCtx := some renderCtx }
    match setContextAreas info.tmpl renderCtx info.hadError areas with
    | (a, err) => .node { info with hadError := err } a

/-- The per-area loop of executeSetContext, threading the node's error flag
(set when a setContext call throws, which skips the remaining areas). -/
def setContextAreas (tmpl : Template) (renderCtx : Nat) (hadError : Bool) :
    HAreas → HAreas × Bool
  | .nil => (.nil, hadError)
  | .cons k cs rest =>
    if hadError then
      match setContextAreas tmpl renderCtx hadError rest with
      | (a, err) => (.cons k cs a, err)
    else
      match tmpl.setContext renderCtx k with
      | .error _ =>
        match setContextAreas tmpl renderCtx true rest with
        | (a, err) => (.cons k cs a, err)
      | .ok ctxForArea =>
        match setContextAreas tmpl renderCtx false rest with
        | (a, err) => (.cons k (setContextList ctxForArea cs) a, err)

/-- Broadcast a derived area context to every child of the area. -/
def setContextList (ctxForArea : Nat) : HList → HList
  | .nil => .nil
  | .cons h t => .cons (executeSetContext ctxForArea h) (setContextList ctxForArea t)
end

/- ===================== Render phase ===================== -/

/-- The inline placeholder an errored node renders as in edit mode; live
and preview renders show nothing. -/
def errorPlaceholder (editMode : Bool) : String :=
  if editMode then "There was an error rendering a component here." else ""

/-- The render environment a node's own render and renderVariation see. -/
def mkEnv (info : HInfo) (renderedAreas : List (String × List String)) : RenderEnv where
  fetched := info.fetched
  renderCtx := info.renderCtx
  renderedAreas := renderedAreas
  editMode := info.editMode
  headContent := info.headContent
  path := info.path

mutual
/-- Shallow embedding of render.ts renderComponent: an errored node
short-circuits to the placeholder (empty outside edit mode) without
rendering its children; otherwise the children of every area are rendered
first (renderedAreas), then the node's own render runs, a throw being
caught, marking the node errored and yielding the placeholder.  The
returned flag is the node's error state after the phase (the page root's
drives the response status). -/
def renderComponent : HComp → String × Bool
  | .node info areas =>
    if info.hadError then (errorPlaceholder info.editMode, true)
    else
      match info.tmpl.render (mkEnv info (renderAreasOut areas)) with
      | .ok s => (s, false)
      | .error _ => (errorPlaceholder info.editMode, true)

/-- Rendered output of each area, in area order. -/
def renderAreasOut : HAreas → List (String × List String)
  | .nil => []
  | .cons k cs rest => (k, renderListOut cs) :: renderAreasOut rest

/-- Rendered output of an area's children, in order. -/
def renderListOut : HList → List String
  | .nil => []
  | .cons h t => (renderComponent h).1 :: renderListOut t
end

mutual
/-- Shallow embedding of render.ts renderVariation: an errored node yields
the empty string; otherwise children are rendered first and the node's own
renderVariation consumes them, a throw being caught and yielding the empty
string. -/
def renderVariation (extension : String) : HComp → String
  | .node info areas =>
    if info.hadError then ""
    else
      match info.tmpl.renderVariation extension
          (mkEnv info (renderVariationAreas extension areas)) with
      | .ok s => s
      | .error _ => ""

/-- Variation output of each area. -/
def renderVariationAreas (extension : String) : HAreas → List (String × List String)
  | .nil => []
  | .cons k cs rest =>
    (k, renderVariationList extension cs) :: renderVariationAreas extension rest

/-- Variation output of an area's children. -/
def renderVariationList (extension : String) : HList → List String
  | .nil => []
  | .cons h t => renderVariation extension h :: renderVariationList extension t
end

/- ===================== Collectors ===================== -/

mutual
/-- Shallow embedding of render.ts collectComponents, projected to template
keys: the pre-order flattening of a hydrated tree. -/
def collectComponents : HComp → List String
  | .node info areas => info.templateKey :: collectComponentsAreas areas

/-- collectComponents over areas. -/
def collectComponentsAreas : HAreas → List String
  | .nil => []
  | .cons _ cs rest => collectComponentsList cs ++ collectComponentsAreas rest

/-- collectComponents over a child list. -/
def collectComponentsList : HList → List String
  | .nil => []
  | .cons h t => collectComponents h ++ collectComponentsList t
end

mutual
/-- Every path in a hydrated tree, in pre-order. -/
def allPaths : HComp → List String
  | .node info areas => info.path :: allPathsAreas areas

/-- Paths of all nodes below the areas of a node. -/
def allPathsAreas : HAreas → List String
  | .nil => []
  | .cons _ cs rest => allPathsList cs ++ allPathsAreas rest

/-- Paths of all nodes of a child list. -/
def allPathsList : HList → List String
  | .nil => []
  | .cons h t => allPaths h ++ allPathsList t
end

mutual
/-- The CSS block names requested over a hydrated tree, in pre-order (each
node contributes its template's declared block names). -/
def collectCss : HComp → List String
  | .node info areas => info.tmpl.cssBlocks ++ collectCssAreas areas

/-- collectCss over areas. -/
def collectCssAreas : HAreas → List String
  | .nil => []
  | .cons _ cs rest => collectCssList cs ++ collectCssAreas rest

/-- collectCss over a child list. -/
def collectCssList : HList → List String
  | .nil => []
  | .cons h t => collectCss h ++ collectCssList t
end

/- ===================== Head assembly and renderPage ===================== -/

/-- First-seen-order deduplication (Array.from(new Set(...))). -/
def dedupFirst : List String → List String
  | [] => []
  | x :: rest => x :: (dedupFirst rest).filter (fun y => y ≠ x)

/-- Head-content assembly, reduced to what the pipeline contributes: the
deduplicated CSS block link tags (plus the editor bootstrap marker in edit
mode).  The resource-registry lookups, font preloads and JS script tags of
the source depend only on process-wide registry data no claim touches and
are abbreviated to the same link-tag shape. -/
def assembleHead (editMode : Bool) (cssNames : List String) : String :=
  (if editMode then "[edit-includes]" else "") ++
    String.intercalate "\n"
      (cssNames.map (fun n => "<link rel=\"stylesheet\" href=\"/.resources/" ++ n ++ ".css\">"))

/-- Store the assembled head content on the page root. -/
def setHead (page : HComp) (head : String) : HComp :=
  match page with
  | .node info areas => .node { info with headContent := some head } areas

/-- Error flag of the page root. -/
def rootHadError (page : HComp) : Bool := page.info.hadError

/-- The outcome of a render: the body string, the HTTP status requested via
the response collaborator (none when no error status was set), and the
final component tree. -/
structure RenderResult where
  body : String
  status : Option Nat
  tree : HComp

/-- Shallow embedding of render.ts renderPage: hydrate (a missing page
implementation propagates as the error), run the fetch phase, abort with an
empty body and a 500 status when the page root is errored, run the context
phase, short-circuit to renderVariation for a non-HTML extension (head
content stays unassembled), otherwise assemble the head content, render,
and request a 500 status when the root errored during its own render.  The
HTTP request/response collaborators are reduced to the returned status;
header manipulation and logging have no effect on the body or tree. -/
def renderPage (reg : PipeReg) (pd : CData) (extension : String) (editMode : Bool) :
    Except String RenderResult :=
  match hydratePage reg pd editMode extension with
  | .error e => .error e
  | .ok page0 =>
    let page1 := fetchComponent reg editMode extension page0
    if rootHadError page1 then .ok ⟨"", some 500, page1⟩
    else
      let page2 := executeSetContext 1 page1
      if extension ≠ "html" then .ok ⟨renderVariation extension page2, none, page2⟩
      else
        let page3 := setHead page2 (assembleHead editMode (dedupFirst (collectCss page2)))
        match renderComponent page3 with
        | (body, rootErr) => .ok ⟨body, if rootErr then some 500 else none, page3⟩

/- ============ Store-based model of the context phase (mutation) ============ -/

/-- A heap of context objects: addresses are indices, values the
heading-level counter a context carries. -/
abbrev CtxStore := List Nat

/-- Read the context value at an address. -/
def CtxStore.getAt (s : CtxStore) (a : Nat) : Nat := List.getD s a 0

/-- Overwrite the context value at an address (an in-place mutation of the
context object a setContext implementation received). -/
def CtxStore.setAt (s : CtxStore) (a v : Nat) : CtxStore := List.set s a v

/-- The clone call of executeSetContext: allocate a fresh context object
holding a copy of the given one (txstate-utils clone is a deep copy). -/
def cloneCtx (s : CtxStore) (a : Nat) : CtxStore × Nat := (s ++ [s.getAt a], s.length)

mutual
/-- A component as seen by the store-based context-phase model: its
setContext capability (which may read and mutate the context object it is
handed, returning the context for the area), its error flag, the address
of the context it received (assigned by the phase) and its areas. -/
inductive CtxComp where
  | node (setContextS : CtxStore → Nat → String → CtxStore × Nat) (hadError : Bool)
    (ctxAddr : Option Nat) (areas : CtxAreas)
/-- Areas of a store-model component. -/
inductive CtxAreas where
  | nil
  | cons (name : String) (children : CtxList) (rest : CtxAreas)
/-- Child list of a store-model area. -/
inductive CtxList where
  | nil
  | cons (head : CtxComp) (tail : CtxList)
end

mutual
/-- Store-based embedding of render.ts executeSetContext, keeping the
mutability of context objects observable: the node records the address of
the context it received; for each area (sequentially: the source awaits
each area before the next) a fresh deep copy of that context is allocated,
handed to the node's setContext, and the resulting context is broadcast to
the area's children.  An errored node skips its areas.  The setContext
capabilities are total here (the error path is covered by the pure model
above); children of one area run in allocation order, and since every
recursion only reads its own address and mutates only addresses it
allocated, any Promise.all interleaving observes the same values. -/
def executeSetContextS : CtxComp → CtxStore → Nat → CtxComp × CtxStore
  | .node f he _ areas, s, addr =>
    match executeSetContextAreasS f he areas s addr with
    | (a, s1) => (.node f he (some addr) a, s1)

/-- The per-area loop of the store-based context phase. -/
def executeSetContextAreasS (f : CtxStore → Nat → String → CtxStore × Nat) (he : Bool) :
    CtxAreas → CtxStore → Nat → CtxAreas × CtxStore
  | .nil, s, _ => (.nil, s)
  | .cons k cs rest, s, addr =>
    if he then
      match executeSetContextAreasS f he rest s addr with
      | (a, s1) => (.cons k cs a, s1)
    else
      match cloneCtx s addr with
      | (s1, copyAddr) =>
        match f s1 copyAddr k with
        | (s2, areaAddr) =>
          match executeSetContextListS cs s2 areaAddr with
          | (cs1, s3) =>
            match executeSetContextAreasS f he rest s3 addr with
            | (a, s4) => (.cons k cs1 a, s4)

/-- Broadcast to the children of one area in the store-based model. -/
def executeSetContextListS : CtxList → CtxStore → Nat → CtxList × CtxStore
  | .nil, s, _ => (.nil, s)
  | .cons h t, s, addr =>
    match executeSetContextS h s addr with
    | (h1, s1) =>
      match executeSetContextListS t s1 addr with
      | (t1, s2) => (.cons h1 t1, s2)
end

/-- The context value each child of an area ended up observing: the store
value at its recorded context address. -/
def observedCtx (s : CtxStore) : CtxList → List (Option Nat)
  | .nil => []
  | .cons (.node _ _ addr _) t => (addr.map (s.getAt)) :: observedCtx s t

/-- Children of a named area of a store-model component. -/
def CtxComp.areaChildren : CtxComp → String → CtxList
  | .node _ _ _ areas, k => go areas k
where
  go : CtxAreas → String → CtxList
    | .nil, _ => .nil
    | .cons n cs rest, k => if n = k then cs else go rest k

/-- A leaf whose setContext is the default pass-through (returns the parent
context unchanged). -/
def ctxLeaf : CtxComp := .node (fun s a _ => (s, a)) false none .nil

/-- A row of n pass-through leaves. -/
def ctxLeafRow : Nat → CtxList
  | 0 => .nil
  | n + 1 => .cons ctxLeaf (ctxLeafRow n)

/-- The setContext of the scenario root: for area a it increments the
counter inside the context object it received (an in-place mutation) and
returns that same object; for area b it returns the object unchanged. -/
def incOnA : CtxStore → Nat → String → CtxStore × Nat :=
  fun s a k => if k = "a" then (s.setAt a (s.getAt a + 1), a) else (s, a)

/-- The scenario root: two areas a (n children) and b (m children). -/
def ctxRoot (n m : Nat) : CtxComp :=
  .node incOnA false none (.cons "a" (ctxLeafRow n) (.cons "b" (ctxLeafRow m) .nil))

/- ============ The template registry (registry.ts addTemplate) ============ -/

/-- A template class as the registry sees it: its static templateKey (the
empty string standing for an undefined key) and whether its prototype chain
descends from Page (the declared kind). -/
structure TemplateClass where
  templateKey : String
  isPage : Bool
deriving DecidableEq, Repr

/-- The process-wide template registry state: the pages map, the components
map and the all-templates list.  The resource-block registration performed
by addProvider touches only the CSS/JS/file maps and is omitted here. -/
structure TemplateRegistry where
  pages : List (String × TemplateClass)
  components : List (String × TemplateClass)
  all : List TemplateClass
deriving DecidableEq, Repr

/-- The empty registry. -/
def TemplateRegistry.empty : TemplateRegistry := ⟨[], [], []⟩

/-- Map.has on a registry map. -/
def mapHas (l : List (String × TemplateClass)) (k : String) : Bool := (l.lookup k).isSome

/-- Shallow embedding of registry.ts addTemplate: an undefined templateKey
is a fatal configuration error; otherwise, when the template declares the
Page kind and its key is not yet in the pages map it is recorded there,
else (whatever its kind) it is recorded in the components map unless its
key is already there; the template is always appended to the all list. -/
def TemplateRegistry.addTemplate (r : TemplateRegistry) (t : TemplateClass) :
    Except String TemplateRegistry :=
  if t.templateKey = "" then
    .error "template has undefined templateKey, that must be corrected"
  else
    let r1 :=
      if t.isPage && !(mapHas r.pages t.templateKey) then
        { r with pages := r.pages ++ [(t.templateKey, t)] }
      else if !(mapHas r.components t.templateKey) then
        { r with components := r.components ++ [(t.templateKey, t)] }
      else r
    .ok { r1 with all := r1.all ++ [t] }

/- ============ Edit bars and new bars ============ -/

/-- The options the process-wide Component.editBar hook receives. -/
structure EditBarOpts where
  editMode : Bool := false
  inheritedFrom : Option String := none
  label : String := ""
  extraClass : Option String := none
  hideEdit : Bool := false
  disableDelete : Bool := false
  disableDrop : Bool := false

/-- The options the process-wide Component.newBar hook receives. -/
structure NewBarOpts where
  editMode : Bool := false
  label : String := ""
  extraClass : Option String := none
  disabled : Bool := false
  disableAddToTop : Bool := false

namespace Component

/-- Shallow embedding of the Component.editBar hook installed by render.ts:
nothing outside edit mode; an inherit bar (carrying the source page id but
no data-path) for a node with inheritance provenance; otherwise a draggable
edit bar addressed by the node's path. -/
def editBar (path : String) (opts : EditBarOpts) : String :=
  if !opts.editMode then ""
  else
    match opts.inheritedFrom with
    | some inh =>
      "<dg-inherit-bar" ++
        (match opts.extraClass with
          | some c => " class=\"" ++ c ++ "\""
          | none => "") ++
        " label=\"" ++ htmlEncode opts.label ++ "\" inherited-from=\"" ++ htmlEncode inh ++
        "\"></dg-inherit-bar>"
    | none =>
      "<dg-edit-bar" ++ (if opts.hideEdit then " hide-edit" else "") ++
        (if opts.disableDelete then " disable-delete" else "") ++
        (match opts.extraClass with
          | some c => " class=\"" ++ c ++ "\""
          | none => "") ++
        " data-path=\"" ++ htmlEncode path ++ "\" data-maxreached=\"" ++
        (if opts.disableDrop then "true" else "false") ++
        "\" label=\"" ++ htmlEncode opts.label ++ "\"></dg-edit-bar>"

/-- Shallow embedding of the Component.newBar hook installed by render.ts. -/
def newBar (path : String) (opts : NewBarOpts) : String :=
  if !opts.editMode then ""
  else
    "<dg-new-bar data-disableaddtotop=\"" ++
      (if opts.disableAddToTop then "true" else "false") ++ "\" " ++
      (if opts.disabled then "disabled " else "") ++ "class=\"" ++
      (opts.extraClass.getD "") ++ "\" data-path=\"" ++ htmlEncode path ++ "\" label=\"" ++
      htmlEncode opts.label ++ "\"></dg-new-bar>"

end Component

/-- Modelled from the spec: the editBar capability of a hydrated node.
The instance method lives in the external templating contract (only its
callers and the process-wide hook are in this repository); per the spec it
is a rendering hook the engine may override per instance, and it forwards
the node's own path, edit mode, inheritance provenance and label to the
process-wide Component.editBar.  Hydration overrides it to return the
empty string on recursively inherited nodes. -/
def HComp.editBarOf (c : HComp) : String :=
  if c.info.editBarSuppressed then ""
  else Component.editBar c.info.path
    { editMode := c.info.editMode, inheritedFrom := c.info.inheritedFrom,
      label := c.info.autoLabel }

/-- Modelled from the spec: the newBar capability of a hydrated node,
forwarding the given insertion path and the node's edit mode and label to
the process-wide Component.newBar hook; hydration overrides it to return
the empty string on every node with inheritance provenance. -/
def HComp.newBarOf (c : HComp) (barPath : String) : String :=
  if c.info.newBarSuppressed then ""
  else Component.newBar barPath { editMode := c.info.editMode, label := c.info.autoLabel }

/- ============ Spec-level characterizations (hydration) ============ -/

/-- Assemble kept keys per declared area names (spec-level mirror of
assembleAreas). -/
def keptAssemble (names : List String) (table : List (String × List String)) : List String :=
  match names with
  | [] => []
  | k :: rest => ((table.lookup k).getD []) ++ keptAssemble rest table

mutual
/-- Spec-level characterization of which template keys survive hydration:
a node contributes its key and its declared areas' children exactly when
its own key is registered; an unregistered node contributes nothing, its
entire subtree included.  Stated on the raw data; the hydration theorem
for C4 compares the hydrated tree against this. -/
def keptKeys (reg : PipeReg) : CData → List String
  | .node key dareas =>
    match reg.components key with
    | none => []
    | some _ => key :: keptAssemble (reg.meta key) (keptTable reg dareas)

/-- Kept keys of every raw area, as a lookup table. -/
def keptTable (reg : PipeReg) : CDAreas → List (String × List String)
  | .nil => []
  | .cons k cs rest => (k, keptList reg cs) :: keptTable reg rest

/-- Kept keys of a raw child list. -/
def keptList (reg : PipeReg) : CDList → List String
  | .nil => []
  | .cons c rest => keptKeys reg c ++ keptList reg rest
end

/-- Spec-level kept keys of a whole page: the root key (the root must be a
registered Page, checked by hydratePage itself) plus its declared areas. -/
def keptKeysPage (reg : PipeReg) : CData → List String
  | .node key dareas => key :: keptAssemble (reg.meta key) (keptTable reg dareas)

mutual
/-- Whether every area of every node numbers its children contiguously:
the stored indexInArea values of an area's children are 0, 1, 2, ... in
order (which is exactly what makes the siblings array and the
prev/next-sibling references computed from it correct). -/
def wellIndexed : HComp → Bool
  | .node _ areas => wellIndexedAreas areas

/-- wellIndexed over areas. -/
def wellIndexedAreas : HAreas → Bool
  | .nil => true
  | .cons _ cs rest => wellIndexedFrom cs 0 && wellIndexedAreas rest

/-- Children of one area carry consecutive indices starting at n. -/
def wellIndexedFrom : HList → Nat → Bool
  | .nil, _ => true
  | .cons h t, n => (h.info.indexInArea == n) && wellIndexed h && wellIndexedFrom t (n + 1)
end

/- ===================== Projections for test fixtures ===================== -/

/-- Children of a named area, as a plain list. -/
def HComp.areaList (c : HComp) (k : String) : List HComp := (c.areas.getArea k).toList

/-- Template keys of a named area's children, in order. -/
def areaKeys (c : HComp) (k : String) : List String :=
  (c.areaList k).map (fun h => h.info.templateKey)

/-- The i-th child of a named area (defaulting past the end). -/
def childAt (c : HComp) (k : String) (i : Nat) : HComp := (c.areaList k).getD i default

/-- Tree of a successful render outcome. -/
def okTree : Except String RenderResult → HComp
  | .ok r => r.tree
  | .error _ => default

/-- Body of a successful render outcome. -/
def okBody : Except String RenderResult → String
  | .ok r => r.body
  | .error _ => ""

/-- Requested status of a successful render outcome. -/
def okStatus : Except String RenderResult → Option Nat
  | .ok r => r.status
  | .error _ => none

/-- Page of a successful hydration. -/
def okPage : Except String HComp → HComp
  | .ok p => p
  | .error _ => default

/-- Component of a successful component hydration. -/
def okComp : Option HComp → HComp
  | some c => c
  | none => default

/- ===================== Concrete fixtures ===================== -/

/-- A leaf component template with the given fetch outcome, render output
and variation output. -/
def compT (fetchR : Except String String) (out vout : String) : Template where
  fetch := fetchR
  registers := []
  shouldFetchVariation := fun _ => true
  setContext := fun c _ => .ok c
  render := fun _ => .ok out
  renderVariation := fun _ _ => .ok vout
  cssBlocks := []

/-- Concatenated child output of a named rendered area. -/
def joinedArea (env : RenderEnv) (k : String) : String :=
  String.join ((env.renderedAreas.lookup k).getD [])

/-- A page template wrapping its main area, with the given fetch outcome
and registerInherited calls. -/
def pageT (fetchR : Except String String) (regs : List RegCall) : Template where
  fetch := fetchR
  registers := regs
  shouldFetchVariation := fun _ => true
  setContext := fun c _ => .ok c
  render := fun env => .ok ("<html>" ++ joinedArea env "main" ++ "</html>")
  renderVariation := fun _ env => .ok ("R(" ++ joinedArea env "main" ++ ")")
  cssBlocks := []

/-- Fixture components A, D and E (E is only ever registered via the
nested, disabled registerInherited call of B). -/
def dataA : CData := .node "keyA" .nil

/-- Raw data of fixture component D (a child of B). -/
def dataD : CData := .node "keyD" .nil

/-- Raw data of fixture component E. -/
def dataE : CData := .node "keyE" .nil

/-- Raw data of the inherited component B with one child D in its sub
area. -/
def dataB : CData := .node "keyB" (.cons "sub" (.cons dataD .nil) .nil)

/-- Template of fixture component A. -/
def tA : Template := compT (.ok "fa") "[A]" "[vA]"

/-- Template of fixture component D. -/
def tD : Template := compT (.ok "fd") "[D]" "[vD]"

/-- Template of fixture component E. -/
def tE : Template := compT (.ok "fe") "[E]" "[vE]"

/-- Template of fixture component B: its fetch makes a nested
registerInherited call (registering E into its sub area), which must have
no effect because inherited components cannot inherit further. -/
def tB : Template :=
  { compT (.ok "fb") "[B]" "[vB]" with
    registers := [⟨"sub", some [dataE], .inl "px", .top⟩] }

/-- The inheritance-splicing scenario: a page whose area main already
contains A, and whose fetch registers one inherited component B (with
child D) into main from source page p9 with the given mode. -/
def c1Reg (m : InheritMode) : PipeReg where
  components := fun k =>
    if k = "keyA" then some tA
    else if k = "keyB" then some tB
    else if k = "keyD" then some tD
    else if k = "keyE" then some tE
    else none
  pages := fun k =>
    if k = "pk" then some (pageT (.ok "pf") [⟨"main", some [dataB], .inl "p9", m⟩]) else none
  meta := fun k => if k = "pk" then ["main"] else if k = "keyB" then ["sub"] else []
  metaName := fun _ => ""

/-- Raw page data of the splicing scenario: area main holding A. -/
def c1Data : CData := .node "pk" (.cons "main" (.cons dataA .nil) .nil)

/-- The splicing scenario tree after the fetch phase. -/
def c1Tree (m : InheritMode) (em : Bool) : HComp :=
  fetchComponent (c1Reg m) em "html" (okPage (hydratePage (c1Reg m) c1Data em "html"))

/-- The empty-registration scenario: the page's fetch calls the
registerInherited callback once with an empty components list in replace
mode targeting main, and once with an absent components list targeting a
fresh area. -/
def c10Reg : PipeReg where
  components := fun k => if k = "keyA" then some tA else none
  pages := fun k =>
    if k = "pk10" then
      some (pageT (.ok "pf")
        [⟨"main", some [], .inl "p1", .replace⟩, ⟨"other", none, .inl "p1", .top⟩])
    else none
  meta := fun k => if k = "pk10" then ["main"] else []
  metaName := fun _ => ""

/-- Raw page data of the empty-registration scenario. -/
def c10Data : CData := .node "pk10" (.cons "main" (.cons dataA .nil) .nil)

/-- The empty-registration scenario tree after the fetch phase. -/
def c10Tree : HComp :=
  fetchComponent c10Reg false "html" (okPage (hydratePage c10Reg c10Data false "html"))

/-- Fixture sibling components for the fetch-isolation scenario. -/
def t1 : Template := compT (.ok "v1") "[1]" "[w1]"

/-- The failing middle sibling: its fetch rejects. -/
def tBad : Template := compT (.error "boom") "[bad]" "[wbad]"

/-- The third sibling. -/
def t3 : Template := compT (.ok "v3") "[3]" "[w3]"

/-- The fetch-isolation scenario: three siblings in main, the middle one's
fetch rejects. -/
def c5Reg : PipeReg where
  components := fun k =>
    if k = "key1" then some t1
    else if k = "keybad" then some tBad
    else if k = "key3" then some t3
    else none
  pages := fun k => if k = "pk5" then some (pageT (.ok "pv") []) else none
  meta := fun k => if k = "pk5" then ["main"] else []
  metaName := fun _ => ""

/-- Raw page data of the fetch-isolation scenario. -/
def c5Data : CData :=
  .node "pk5" (.cons "main" (CDList.ofList [.node "key1" .nil, .node "keybad" .nil, .node "key3" .nil]) .nil)

/-- The fetch-isolation scenario tree after the fetch phase. -/
def c5Tree : HComp :=
  fetchComponent c5Reg false "html" (okPage (hydratePage c5Reg c5Data false "html"))

/-- The root-error scenario: the page's own fetch rejects. -/
def c6Reg : PipeReg where
  components := fun k => if k = "key1" then some t1 else none
  pages := fun k => if k = "pk6" then some (pageT (.error "rootboom") []) else none
  meta := fun k => if k = "pk6" then ["main"] else []
  metaName := fun _ => ""

/-- Raw page data of the root-error scenario. -/
def c6Data : CData := .node "pk6" (.cons "main" (.cons (.node "key1" .nil) .nil) .nil)

/-- The hydrated (pre-fetch) root of the root-error scenario. -/
def c6Page0 : HComp := okPage (hydratePage c6Reg c6Data false "html")

/-- The variation scenario: the page's setContext advances the heading
level for every area, so a child of main observing context 2 witnesses that
the context phase ran. -/
def c2Reg : PipeReg where
  components := fun k => if k = "key1" then some t1 else none
  pages := fun k =>
    if k = "pk2" then some { pageT (.ok "pf") [] with setContext := fun c _ => .ok (c + 1) }
    else none
  meta := fun k => if k = "pk2" then ["main"] else []
  metaName := fun _ => ""

/-- Raw page data of the variation scenario. -/
def c2Data : CData := .node "pk2" (.cons "main" (.cons (.node "key1" .nil) .nil) .nil)

/-- The duplicated-path scenario: the page registers two inherited
components into main, both of which receive the literal path inherited. -/
def c9Reg : PipeReg where
  components := fun k =>
    if k = "keyA" then some tA
    else if k = "keyD" then some tD
    else if k = "keyE" then some tE
    else none
  pages := fun k =>
    if k = "pk9" then
      some (pageT (.ok "pf") [⟨"main", some [dataD, dataE], .inl "p9", .bottom⟩])
    else none
  meta := fun k => if k = "pk9" then ["main"] else []
  metaName := fun _ => ""

/-- Raw page data of the duplicated-path scenario. -/
def c9Data : CData := .node "pk9" (.cons "main" (.cons dataA .nil) .nil)

/-- The duplicated-path scenario tree after the fetch phase. -/
def c9Tree : HComp :=
  fetchComponent c9Reg false "html" (okPage (hydratePage c9Reg c9Data false "html"))

/-- The dropped-template scenario: main holds a registered component, an
unregistered one with a registered child inside, and another registered
one. -/
def c4Reg : PipeReg where
  components := fun k =>
    if k = "key1" then some t1 else if k = "key3" then some t3 else none
  pages := fun k => if k = "pk4" then some (pageT (.ok "pf") []) else none
  meta := fun k =>
    if k = "pk4" then ["main"] else if k = "keyU" then ["inner"] else []
  metaName := fun _ => ""

/-- Raw page data of the dropped-template scenario: the middle child keyU
is unregistered and holds a registered key3 child that must be dropped
with it. -/
def c4Data : CData :=
  .node "pk4" (.cons "main" (CDList.ofList
    [.node "key1" .nil,
     .node "keyU" (.cons "inner" (.cons (.node "key3" .nil) .nil) .nil),
     .node "key3" .nil]) .nil)

/-- Registry of a registration chain, defaulting to empty on a thrown
configuration error. -/
def regAfter : Except String TemplateRegistry → TemplateRegistry
  | .ok r => r
  | .error _ => TemplateRegistry.empty

/-- A Page-kind template class with key k. -/
def pageClass : TemplateClass := ⟨"k", true⟩

/-- The registry after registering the same Page class once. -/
def c8Once : TemplateRegistry := regAfter (TemplateRegistry.empty.addTemplate pageClass)

/-- The registry after registering the same Page class twice. -/
def c8Twice : TemplateRegistry := regAfter (c8Once.addTemplate pageClass)

/-- A pass-through leaf that has recorded the context address it was
handed (the post-phase state of a leaf). -/
def ctxLeafAt (addr : Nat) : CtxComp := .node (fun s a _ => (s, a)) false (some addr) .nil

/-- A row of j post-phase leaves all holding the same context address. -/
def ctxLeafRowAt : Nat → Nat → CtxList
  | 0, _ => .nil
  | j + 1, addr => .cons (ctxLeafAt addr) (ctxLeafRowAt j addr)

/- ===================== Theorems ===================== -/

/-- C1: inheritance splicing mode semantics.  For the page whose area main
already contains A and whose fetch registers one inherited component B
(with child D) into main from page p9: mode top yields order B then A,
mode bottom yields A then B, mode replace yields B alone with A discarded;
B and its child D carry inheritedFrom p9; and although B's own fetch calls
registerInherited (attempting to register E), its callback is the disabled
no-op, so the final tree contains exactly the page, B, D and A (mode top)
and B's sub area still holds exactly D. -/
theorem c1_inheritance_splice_modes :
    areaKeys (c1Tree .top false) "main" = ["keyB", "keyA"] ∧
    areaKeys (c1Tree .bottom false) "main" = ["keyA", "keyB"] ∧
    areaKeys (c1Tree .replace false) "main" = ["keyB"] ∧
    (childAt (c1Tree .top false) "main" 0).info.inheritedFrom = some "p9" ∧
    (childAt (childAt (c1Tree .top false) "main" 0) "sub" 0).info.inheritedFrom = some "p9" ∧
    (childAt (c1Tree .bottom false) "main" 1).info.inheritedFrom = some "p9" ∧
    (childAt (c1Tree .replace false) "main" 0).info.inheritedFrom = some "p9" ∧
    collectComponents (c1Tree .top false) = ["pk", "keyB", "keyD", "keyA"] ∧
    areaKeys (childAt (c1Tree .top false) "main" 0) "sub" = ["keyD"] :=
  ⟨rfl, rfl, rfl, rfl, rfl, rfl, rfl, rfl, rfl⟩

/-- C5: fetch-phase error isolation.  Of the three siblings in main, only
the middle one's fetch rejects: afterwards the outer two have their fetched
data populated and no error flag, the middle one has the error flag and no
fetched data, the root is unaffected, and the rendered page still contains
both successful outputs, with the middle contributing nothing in live mode
and the inline placeholder in edit mode. -/
theorem c5_fetch_error_isolation :
    (childAt c5Tree "main" 0).info.fetched = some "v1" ∧
    (childAt c5Tree "main" 0).info.hadError = false ∧
    (childAt c5Tree "main" 1).info.fetched = none ∧
    (childAt c5Tree "main" 1).info.hadError = true ∧
    (childAt c5Tree "main" 2).info.fetched = some "v3" ∧
    (childAt c5Tree "main" 2).info.hadError = false ∧
    rootHadError c5Tree = false ∧
    okBody (renderPage c5Reg c5Data "html" false) = "<html>[1][3]</html>" ∧
    okBody (renderPage c5Reg c5Data "html" true) =
      "<html>[1]There was an error rendering a component here.[3]</html>" :=
  ⟨rfl, rfl, rfl, rfl, rfl, rfl, rfl, rfl, rfl⟩

/-- C10: a registerInherited call with an absent or empty components list
pushes no registration record (for every prior state and any mode,
including replace), and in the end-to-end scenario whose page makes exactly
such calls (an empty replace-mode registration into main, an absent-list
registration into other) the main area still holds exactly A at its
original path and no other area was created. -/
theorem c10_empty_registration_noop :
    (∀ (st : List RegEntry) (area : String) (f : String ⊕ List String) (m : InheritMode),
       registerInherited st ⟨area, some [], f, m⟩ = st ∧
       registerInherited st ⟨area, none, f, m⟩ = st) ∧
    areaKeys c10Tree "main" = ["keyA"] ∧
    (c10Tree.areaList "main").map (fun h => h.info.path) = ["areas.main.0"] ∧
    c10Tree.areas.hasArea "other" = false :=
  ⟨fun _ _ _ _ => ⟨rfl, rfl⟩, rfl, rfl, rfl⟩

/-- C2 counterexample: requesting extension rss does invoke setContext.
The scenario page's setContext advances the heading level; after a render
with extension rss the root carries the initial context and its child
carries the advanced context 2, which only the context phase can have
assigned, refuting the claim that no setContext is invoked for a non-HTML
extension (the returned body is still the variation output). -/
theorem c2_setcontext_invoked_counterexample :
    (okTree (renderPage c2Reg c2Data "rss" false)).info.renderCtx = some 1 ∧
    (childAt (okTree (renderPage c2Reg c2Data "rss" false)) "main" 0).info.renderCtx = some 2 ∧
    "rss" ≠ "html" ∧
    okBody (renderPage c2Reg c2Data "rss" false) = "R([w1])" :=
  ⟨rfl, rfl, by decide, rfl⟩

/-- C3 counterexample: the editBar of an inherited splice root is not
empty in edit mode.  The component B spliced into main carries
inheritedFrom p9 and edit mode, and its editBar capability yields the
inherit-bar markup, refuting the claim that editBar yields empty output
for every component with inheritedFrom set regardless of editMode. -/
theorem c3_inherit_bar_counterexample :
    (childAt (c1Tree .top true) "main" 0).info.inheritedFrom = some "p9" ∧
    (childAt (c1Tree .top true) "main" 0).info.editMode = true ∧
    (childAt (c1Tree .top true) "main" 0).editBarOf =
      "<dg-inherit-bar label=\"\" inherited-from=\"p9\"></dg-inherit-bar>" ∧
    (childAt (c1Tree .top true) "main" 0).editBarOf ≠ "" :=
  ⟨rfl, rfl, rfl, by decide⟩

/-- C9 counterexample: paths are not distinct once inherited components are
spliced in.  The scenario page splices two inherited components into main;
both are hydrated at the literal path inherited, so the tree holds
duplicate paths. -/
theorem c9_spliced_path_counterexample :
    allPaths c9Tree = ["", "areas.main.0", "inherited", "inherited"] ∧
    ¬ (allPaths c9Tree).Nodup :=
  ⟨rfl, by decide⟩

/-- C8 counterexample: re-registration is not a no-op and the kinds are not
mutually exclusive.  Registering the same Page class (key k) twice leaves
it in the pages map but additionally records it in the components map (the
second call falls through the first-registration guard into the component
branch), so the key then resolves to both a Page and a Component; the all
list also grows on every call. -/
theorem c8_reregistration_counterexample :
    (c8Twice.pages.lookup "k").isSome = true ∧
    c8Twice.components.lookup "k" = some pageClass ∧
    c8Once.components.lookup "k" = none ∧
    c8Twice ≠ c8Once ∧
    c8Twice.all.length = 2 :=
  ⟨rfl, rfl, rfl, by decide, rfl⟩

/-- The fetch phase changes only the fetched data, error flag, areas and
auto label of a node: its template, head content and path survive. -/
theorem fetchComponent_preserves (reg : PipeReg) (em : Bool) (ext : String) (c : HComp) :
    (fetchComponent reg em ext c).info.tmpl = c.info.tmpl ∧
    (fetchComponent reg em ext c).info.headContent = c.info.headContent ∧
    (fetchComponent reg em ext c).info.path = c.info.path := by
  cases c with
  | node info areas =>
    simp only [fetchComponent]
    by_cases h : info.tmpl.shouldFetchVariation ext = true
    · simp only [h, if_true]
      cases hf : info.tmpl.fetch <;> simp [HComp.info]
    · simp only [h, if_false]
      simp [HComp.info]

/-- The context phase changes only the render context, error flag and
areas of a node: its template and head content survive. -/
theorem executeSetContext_preserves (n : Nat) (c : HComp) :
    (executeSetContext n c).info.tmpl = c.info.tmpl ∧
    (executeSetContext n c).info.headContent = c.info.headContent ∧
    (executeSetContext n c).info.fetched = c.info.fetched := by
  cases c with
  | node info areas =>
    cases hx : setContextAreas info.tmpl n info.hadError areas with
    | mk a err => simp [executeSetContext, HComp.info, hx]

/-- When none of a node's setContext calls can throw, walking its areas
never raises its error flag. -/
theorem setContextAreas_ok (tmpl : Template) (n : Nat)
    (hok : ∀ c k, (tmpl.setContext c k).isOk = true) :
    ∀ a : HAreas, (setContextAreas tmpl n false a).2 = false
  | .nil => by simp [setContextAreas]
  | .cons k cs rest => by
    have ih := setContextAreas_ok tmpl n hok rest
    have h := hok n k
    simp only [setContextAreas, Bool.false_eq_true, if_false]
    cases hc : tmpl.setContext n k with
    | error e => rw [hc] at h; simp [Except.isOk, Except.toBool] at h
    | ok v => simpa [hc] using ih

/-- The error flag of a node after the context phase, given it entered the
phase clean and its setContext cannot throw. -/
theorem executeSetContext_hadError (n : Nat) (c : HComp)
    (hclean : c.info.hadError = false)
    (hok : ∀ ctx k, (c.info.tmpl.setContext ctx k).isOk = true) :
    (executeSetContext n c).info.hadError = false := by
  cases c with
  | node info areas =>
    simp only [HComp.info] at hclean hok
    cases hx : setContextAreas info.tmpl n info.hadError areas with
    | mk a err =>
      have hh := setContextAreas_ok info.tmpl n hok areas
      rw [hclean] at hx
      rw [hx] at hh
      simp only [executeSetContext, HComp.info, hclean, hx]
      simpa using hh

/-- setHead changes only the head content of the root. -/
theorem setHead_preserves (c : HComp) (h : String) :
    (setHead c h).info.tmpl = c.info.tmpl ∧
    (setHead c h).info.hadError = c.info.hadError := by
  cases c with
  | node info areas => simp [setHead, HComp.info]

/-- A clean node whose render cannot throw leaves the render phase clean. -/
theorem renderComponent_ok (c : HComp)
    (hclean : c.info.hadError = false)
    (hok : ∀ env, (c.info.tmpl.render env).isOk = true) :
    (renderComponent c).2 = false := by
  cases c with
  | node info areas =>
    simp only [HComp.info] at hclean hok
    simp only [renderComponent, hclean, Bool.false_eq_true, if_false]
    cases hr : info.tmpl.render (mkEnv info (renderAreasOut areas)) with
    | error e =>
      have hh := hok (mkEnv info (renderAreasOut areas))
      rw [hr] at hh
      simp [Except.isOk, Except.toBool] at hh
    | ok s => simp [hr]

/-- An errored node renders its variation as the empty string. -/
theorem renderVariation_error_empty (ext : String) (c : HComp)
    (h : c.info.hadError = true) : renderVariation ext c = "" := by
  cases c with
  | node info areas =>
    simp only [HComp.info] at h
    simp [renderVariation, h]

/-- A freshly hydrated page root has no head content yet. -/
theorem hydratePage_headContent (reg : PipeReg) (pd : CData) (em : Bool) (ext : String)
    (page : HComp) (h : hydratePage reg pd em ext = .ok page) :
    page.info.headContent = none := by
  cases pd with
  | node key dareas =>
    simp only [hydratePage] at h
    cases hp : reg.pages key with
    | none => rw [hp] at h; simp at h
    | some tmpl =>
      rw [hp] at h
      simp only [Except.ok.injEq] at h
      subst h
      simp [HComp.info, initInfo]

/-- C2 (amended): the variation short-circuit.  For a non-HTML extension,
once the fetch phase leaves the page root clean, renderPage returns exactly
the renderVariation composition of the context-phase tree (parent wraps the
outputs of its children, recursively), requests no error status, and skips
head-content assembly (the returned tree still has no head content); every
node whose error flag is set contributes the empty string to that
composition.  The context phase itself is not skipped: it runs before the
extension check (see the counterexample). -/
theorem c2_variation_short_circuit (reg : PipeReg) (pd : CData) (ext : String) (em : Bool)
    (page0 : HComp)
    (hext : ext ≠ "html")
    (h0 : hydratePage reg pd em ext = .ok page0)
    (hroot : rootHadError (fetchComponent reg em ext page0) = false) :
    renderPage reg pd ext em =
      .ok ⟨renderVariation ext (executeSetContext 1 (fetchComponent reg em ext page0)),
        none, executeSetContext 1 (fetchComponent reg em ext page0)⟩ ∧
    (okTree (renderPage reg pd ext em)).info.headContent = none ∧
    (∀ c : HComp, c.info.hadError = true → renderVariation ext c = "") := by
  have hmain : renderPage reg pd ext em =
      .ok ⟨renderVariation ext (executeSetContext 1 (fetchComponent reg em ext page0)),
        none, executeSetContext 1 (fetchComponent reg em ext page0)⟩ := by
    simp [renderPage, h0, hroot, hext]
  refine ⟨hmain, ?_, fun c hc => renderVariation_error_empty ext c hc⟩
  rw [hmain]
  simp only [okTree]
  rw [(executeSetContext_preserves 1 (fetchComponent reg em ext page0)).2.1]
  rw [(fetchComponent_preserves reg em ext page0).2.1]
  exact hydratePage_headContent reg pd em ext page0 h0

/-- C2 witness: the amended short-circuit at the concrete rss scenario. -/
theorem c2_variation_short_circuit_witness :
    renderPage c2Reg c2Data "rss" false =
      .ok ⟨renderVariation "rss" (executeSetContext 1
          (fetchComponent c2Reg false "rss" (okPage (hydratePage c2Reg c2Data false "rss")))),
        none, executeSetContext 1
          (fetchComponent c2Reg false "rss" (okPage (hydratePage c2Reg c2Data false "rss")))⟩ ∧
    (okTree (renderPage c2Reg c2Data "rss" false)).info.headContent = none ∧
    (∀ c : HComp, c.info.hadError = true → renderVariation "rss" c = "") :=
  c2_variation_short_circuit c2Reg c2Data "rss" false
    (okPage (hydratePage c2Reg c2Data false "rss")) (by decide) rfl rfl

/-- C6: root-error abort.  Whenever the page root's error flag is set at
the end of the fetch phase, renderPage returns the empty body and requests
status 500 (whatever the state of the other nodes); and when the root comes
out of the fetch phase clean and its own setContext and render cannot
throw, no 500 status is ever requested, whatever errors other nodes
recorded. -/
theorem c6_root_error_abort (reg : PipeReg) (pd : CData) (ext : String) (em : Bool)
    (page0 : HComp)
    (h0 : hydratePage reg pd em ext = .ok page0) :
    (rootHadError (fetchComponent reg em ext page0) = true →
      renderPage reg pd ext em = .ok ⟨"", some 500, fetchComponent reg em ext page0⟩) ∧
    (rootHadError (fetchComponent reg em ext page0) = false →
      (∀ ctx k, (page0.info.tmpl.setContext ctx k).isOk = true) →
      (∀ env, (page0.info.tmpl.render env).isOk = true) →
      okStatus (renderPage reg pd ext em) ≠ some 500) := by
  constructor
  · intro hr
    simp [renderPage, h0, hr]
  · intro hr hsc hrd
    by_cases hext : ext = "html"
    · subst hext
      have htmpl1 := (fetchComponent_preserves reg em "html" page0).1
      have hctx : (executeSetContext 1 (fetchComponent reg em "html" page0)).info.hadError
          = false := by
        apply executeSetContext_hadError
        · exact hr
        · intro ctx k
          rw [htmpl1]
          exact hsc ctx k
      have htmpl2 := (executeSetContext_preserves 1 (fetchComponent reg em "html" page0)).1
      set page2 := executeSetContext 1 (fetchComponent reg em "html" page0) with hp2
      set hd := assembleHead em (dedupFirst (collectCss page2)) with hhd
      have hrender : (renderComponent (setHead page2 hd)).2 = false := by
        apply renderComponent_ok
        · rw [(setHead_preserves page2 hd).2]; exact hctx
        · intro env
          rw [(setHead_preserves page2 hd).1, htmpl2, htmpl1]
          exact hrd env
      simp only [renderPage, h0, hr, Bool.false_eq_true, if_false,
        if_neg (by simp : ¬ ("html" ≠ "html"))]
      rw [← hp2, ← hhd]
      cases hrc : renderComponent (setHead page2 hd) with
      | mk body rootErr =>
        rw [hrc] at hrender
        simp only at hrender
        subst hrender
        simp [okStatus]
    · have hmain : renderPage reg pd ext em =
          .ok ⟨renderVariation ext (executeSetContext 1 (fetchComponent reg em ext page0)),
            none, executeSetContext 1 (fetchComponent reg em ext page0)⟩ := by
        simp [renderPage, h0, hr, hext]
      rw [hmain]
      simp [okStatus]

/-- C6 witness: the abort branch at the failing-root scenario and the
no-500 branch at the fetch-isolation scenario (whose middle child errors). -/
theorem c6_root_error_abort_witness :
    renderPage c6Reg c6Data "html" false =
      .ok ⟨"", some 500, fetchComponent c6Reg false "html" c6Page0⟩ ∧
    okStatus (renderPage c5Reg c5Data "html" false) ≠ some 500 :=
  ⟨(c6_root_error_abort c6Reg c6Data "html" false c6Page0 rfl).1 rfl,
   (c6_root_error_abort c5Reg c5Data "html" false
      (okPage (hydratePage c5Reg c5Data false "html")) rfl).2 rfl
      (fun _ _ => rfl) (fun _ => rfl)⟩

/-- A binding in an association list survives appending. -/
theorem lookup_append_of_some (l l2 : List (String × TemplateClass)) (k : String)
    (v : TemplateClass) (h : l.lookup k = some v) : (l ++ l2).lookup k = some v := by
  induction l with
  | nil => simp [List.lookup] at h
  | cons hd tl ih =>
    cases hd with
    | mk a b =>
      simp only [List.cons_append, List.lookup] at h ⊢
      by_cases hk : k = a
      · simp [hk] at h ⊢; exact h
      · have : (k == a) = false := by simp [hk]
        rw [this] at h ⊢
        exact ih h

/-- An absent key is found at the end after appending its binding. -/
theorem lookup_append_missing (l : List (String × TemplateClass)) (k : String)
    (v : TemplateClass) (h : l.lookup k = none) : (l ++ [(k, v)]).lookup k = some v := by
  induction l with
  | nil => simp [List.lookup]
  | cons hd tl ih =>
    cases hd with
    | mk a b =>
      simp only [List.cons_append, List.lookup] at h ⊢
      by_cases hk : k = a
      · simp [hk] at h
      · have : (k == a) = false := by simp [hk]
        rw [this] at h ⊢
        exact ih h

/-- C8 (amended): within each of the pages and components maps the first
registration for a key wins and later calls never overwrite it; but a
successful addTemplate is not a complete no-op on re-registration: the
all-templates list grows on every call, and re-registering a key already
present in the pages map records the template additionally in the
components map (when that key is still free there), so a key can come to
resolve to both a Page and a Component. -/
theorem c8_first_registration_wins (r : TemplateRegistry) (t : TemplateClass)
    (r2 : TemplateRegistry) (h : r.addTemplate t = .ok r2) :
    (∀ k v, r.pages.lookup k = some v → r2.pages.lookup k = some v) ∧
    (∀ k v, r.components.lookup k = some v → r2.components.lookup k = some v) ∧
    r2.all = r.all ++ [t] ∧
    (t.isPage = true → mapHas r.pages t.templateKey = true →
      mapHas r.components t.templateKey = false →
      r2.components.lookup t.templateKey = some t) := by
  by_cases hk : t.templateKey = ""
  · simp [TemplateRegistry.addTemplate, hk] at h
  · simp only [TemplateRegistry.addTemplate, hk, if_false] at h
    by_cases h1 : (t.isPage && !(mapHas r.pages t.templateKey)) = true
    · rw [if_pos h1] at h
      simp only [Except.ok.injEq] at h
      subst h
      refine ⟨fun k v hv => lookup_append_of_some _ _ _ _ hv, fun k v hv => hv, rfl, ?_⟩
      intro _ hhas _
      rw [hhas] at h1
      simp at h1
    · rw [if_neg h1] at h
      by_cases h2 : (!(mapHas r.components t.templateKey)) = true
      · rw [if_pos h2] at h
        simp only [Except.ok.injEq] at h
        subst h
        refine ⟨fun k v hv => hv, fun k v hv => lookup_append_of_some _ _ _ _ hv, rfl, ?_⟩
        intro _ _ hmiss
        apply lookup_append_missing
        simp only [mapHas, Option.isSome] at hmiss
        cases hl : r.components.lookup t.templateKey with
        | none => rfl
        | some w => rw [hl] at hmiss; simp at hmiss
      · rw [if_neg h2] at h
        simp only [Except.ok.injEq] at h
        subst h
        refine ⟨fun k v hv => hv, fun k v hv => hv, rfl, ?_⟩
        intro _ _ hmiss
        rw [hmiss] at h2
        simp at h2

/-- C8 witness: the amended statement applied to a second registration of
the Page class with key k (already in the pages map, absent from the
components map), showing the preserved pages binding, the grown all list
and the new components binding. -/
theorem c8_first_registration_wins_witness :
    c8Twice.pages.lookup "k" = some pageClass ∧
    c8Twice.all = c8Once.all ++ [pageClass] ∧
    c8Twice.components.lookup "k" = some pageClass :=
  have h := c8_first_registration_wins c8Once pageClass c8Twice rfl
  ⟨h.1 "k" pageClass rfl, h.2.2.1, h.2.2.2 rfl rfl rfl⟩

/-- Safe character lists pass through htmlEncodeChar untouched. -/
theorem flatMap_htmlEncodeChar_of_safe (l : List Char)
    (h : ∀ c ∈ l, c ≠ '&' ∧ c ≠ '<' ∧ c ≠ '>' ∧ c ≠ '"' ∧ c ≠ '\'') :
    l.flatMap htmlEncodeChar = l := by
  induction l with
  | nil => simp
  | cons c cs ih =>
    have hc := h c (by simp)
    have ihh : cs.flatMap htmlEncodeChar = cs := ih (fun x hx => h x (by simp [hx]))
    simp only [List.flatMap_cons, ihh]
    simp [htmlEncodeChar, hc.1, hc.2.1, hc.2.2.1, hc.2.2.2.1, hc.2.2.2.2]

/-- htmlEncode leaves a string free of HTML-significant characters
unchanged. -/
theorem htmlEncode_of_safe (s : String) (h : htmlSafe s) : htmlEncode s = s := by
  apply String.ext
  show s.data.flatMap htmlEncodeChar = s.data
  exact flatMap_htmlEncodeChar_of_safe s.data h

/-- A concatenation ending in a non-empty string is non-empty. -/
theorem append_ne_empty_of_right (a b : String) (hb : b ≠ "") : a ++ b ≠ "" := by
  intro h
  apply hb
  have hd := congrArg String.data h
  rw [String.data_append] at hd
  have hnil : b.data = [] := (List.append_eq_nil.mp hd).2
  apply String.ext
  simpa using hnil

/-- C3 (amended): edit affordances under inheritance.  For every hydrated
component: newBar yields the empty string whenever inheritedFrom is set
(hydration overrides the hook), whatever the edit mode; editBar yields the
empty string on every node hydrated under recursiveInherit (descendants of
an inherited splice root) and on every node outside edit mode; an
inherited splice root itself in edit mode yields the non-empty inherit-bar
markup, which carries the source page id and no data-path; and a
non-inherited node in edit mode yields non-empty edit-bar markup
containing the node's path. -/
theorem c3_edit_affordances (reg : PipeReg) (d : CData) (path : String) (em : Bool)
    (inh : Option String) (ext : String) (rin : Bool) (c : HComp)
    (h : hydrateComponent reg d path em inh ext rin = some c) :
    (inh.isSome = true → ∀ p, c.newBarOf p = "") ∧
    (rin = true → c.editBarOf = "") ∧
    (em = false → c.editBarOf = "") ∧
    (∀ pid, rin = false → inh = some pid → em = true →
      c.editBarOf = "<dg-inherit-bar label=\"\" inherited-from=\"" ++ htmlEncode pid ++
        "\"></dg-inherit-bar>" ∧ c.editBarOf ≠ "") ∧
    (inh = none → rin = false → em = true →
      c.editBarOf ≠ "" ∧ (htmlSafe path → ∃ pre post, c.editBarOf = pre ++ path ++ post)) := by
  cases d with
  | node key dareas =>
    simp only [hydrateComponent] at h
    cases hreg : reg.components key with
    | none => rw [hreg] at h; simp at h
    | some tmpl =>
      rw [hreg] at h
      simp only [Option.some.injEq] at h
      subst h
      refine ⟨?_, ?_, ?_, ?_, ?_⟩
      · intro hinh p
        simp [HComp.newBarOf, HComp.info, initInfo, hinh]
      · intro hr
        simp [HComp.editBarOf, HComp.info, initInfo, hr]
      · intro hem
        cases rin <;> simp [HComp.editBarOf, HComp.info, initInfo, Component.editBar, hem]
      · intro pid hr hinh hem
        subst hr hinh hem
        constructor
        · simp only [HComp.editBarOf, HComp.info, initInfo, Bool.false_eq_true, if_false,
            Component.editBar, Bool.not_true]
          have hlit : (("<dg-inherit-bar" ++ "" ++ " label=\"" ++ htmlEncode "" ++
              "\" inherited-from=\"" : String)) = "<dg-inherit-bar label=\"\" inherited-from=\"" := by
            decide
          rw [← hlit]
        · simp only [HComp.editBarOf, HComp.info, initInfo, Bool.false_eq_true, if_false,
            Component.editBar, Bool.not_true]
          exact append_ne_empty_of_right _ _ (by decide)
      · intro hinh hr hem
        subst hinh hr hem
        constructor
        · simp only [HComp.editBarOf, HComp.info, initInfo, Bool.false_eq_true, if_false,
            Component.editBar, Bool.not_true]
          exact append_ne_empty_of_right _ _ (by decide)
        · intro hsafe
          refine ⟨"<dg-edit-bar" ++ "" ++ "" ++ "" ++ " data-path=\"",
            "\" data-maxreached=\"" ++ "false" ++ "\" label=\"" ++ htmlEncode "" ++
              "\"></dg-edit-bar>", ?_⟩
          simp only [HComp.editBarOf, HComp.info, initInfo, Bool.false_eq_true, if_false,
            Component.editBar, Bool.not_true]
          rw [htmlEncode_of_safe path hsafe]
          simp [String.append_assoc]

/-- C3 witness: the amended statement applied to the inherited splice root
B (inherit bar in edit mode, suppressed new bar), a recursively inherited
node (suppressed edit bar) and a native node in edit mode (edit bar
containing the path). -/
theorem c3_edit_affordances_witness :
    (okComp (hydrateComponent (c1Reg .top) dataB "inherited" true (some "p9") "html"
        false)).editBarOf =
      "<dg-inherit-bar label=\"\" inherited-from=\"" ++ htmlEncode "p9" ++
        "\"></dg-inherit-bar>" ∧
    (okComp (hydrateComponent (c1Reg .top) dataB "inherited" true (some "p9") "html"
        false)).newBarOf "q" = "" ∧
    (okComp (hydrateComponent (c1Reg .top) dataD "inherited.areas.sub.0" true (some "p9")
        "html" true)).editBarOf = "" ∧
    (okComp (hydrateComponent (c1Reg .top) dataA "areas.main.0" true none "html"
        false)).editBarOf ≠ "" := by
  refine ⟨?_, ?_, ?_, ?_⟩
  · exact ((c3_edit_affordances (c1Reg .top) dataB "inherited" true (some "p9") "html" false
      _ rfl).2.2.2.1 "p9" rfl rfl rfl).1
  · exact (c3_edit_affordances (c1Reg .top) dataB "inherited" true (some "p9") "html" false
      _ rfl).1 rfl "q"
  · exact (c3_edit_affordances (c1Reg .top) dataD "inherited.areas.sub.0" true (some "p9")
      "html" true _ rfl).2.1 rfl
  · exact ((c3_edit_affordances (c1Reg .top) dataA "areas.main.0" true none "html" false
      _ rfl).2.2.2.2 rfl rfl rfl).1

/-- Broadcasting an address to a row of pass-through leaves records that
address on every leaf and leaves the store untouched. -/
theorem leafRow_exec (j : Nat) (s : CtxStore) (addr : Nat) :
    executeSetContextListS (ctxLeafRow j) s addr = (ctxLeafRowAt j addr, s) := by
  induction j generalizing s with
  | zero => simp [ctxLeafRow, ctxLeafRowAt, executeSetContextListS]
  | succ j ih =>
    simp only [ctxLeafRow, ctxLeafRowAt, executeSetContextListS, executeSetContextS, ctxLeaf,
      executeSetContextAreasS, ctxLeafAt]
    rw [ih]

/-- The observed context of a row of leaves holding one address. -/
theorem observed_leafRowAt (s : CtxStore) (j addr : Nat) :
    observedCtx s (ctxLeafRowAt j addr) = List.replicate j (some (s.getAt addr)) := by
  induction j with
  | zero => simp [ctxLeafRowAt, observedCtx]
  | succ j ih => simp [ctxLeafRowAt, observedCtx, ctxLeafAt, ih, List.replicate]

/-- C7: context-phase sibling-area isolation in the store-based model of
executeSetContext.  For the root whose setContext increments the counter
inside the context object it is handed for area a and passes it through
unchanged for area b, with any numbers of children in each area and any
initial counter value: every child of a observes the incremented counter
and every child of b observes the original one.  Each area receives a
fresh deep copy of the parent context before the mutation, so the
mutation in area a is invisible to area b; and since every recursion
reads only its own address and writes only addresses it allocated, any
interleaving of the per-area child broadcasts observes these same
values. -/
theorem c7_context_isolation (n m c : Nat) :
    observedCtx (executeSetContextS (ctxRoot n m) [c] 0).2
        ((executeSetContextS (ctxRoot n m) [c] 0).1.areaChildren "a") =
      List.replicate n (some (c + 1)) ∧
    observedCtx (executeSetContextS (ctxRoot n m) [c] 0).2
        ((executeSetContextS (ctxRoot n m) [c] 0).1.areaChildren "b") =
      List.replicate m (some c) := by
  have h1 : executeSetContextAreasS incOnA false
      (.cons "a" (ctxLeafRow n) (.cons "b" (ctxLeafRow m) .nil)) [c] 0 =
      (.cons "a" (ctxLeafRowAt n 1) (.cons "b" (ctxLeafRowAt m 2) .nil), [c, c + 1, c]) := by
    simp only [executeSetContextAreasS, Bool.false_eq_true, if_false, cloneCtx,
      CtxStore.getAt, List.getD_cons_zero, List.length_cons, List.length_nil]
    simp only [incOnA, if_pos rfl, CtxStore.setAt, CtxStore.getAt]
    norm_num
    rw [leafRow_exec]
    simp only [executeSetContextAreasS, Bool.false_eq_true, if_false, cloneCtx,
      CtxStore.getAt, CtxStore.setAt]
    norm_num
    rw [leafRow_exec]
    simp [executeSetContextAreasS]
  have hrun : executeSetContextS (ctxRoot n m) [c] 0 =
      (.node incOnA false (some 0)
        (.cons "a" (ctxLeafRowAt n 1) (.cons "b" (ctxLeafRowAt m 2) .nil)), [c, c + 1, c]) := by
    simp only [ctxRoot, executeSetContextS]
    rw [h1]
  rw [hrun]
  constructor
  · show observedCtx [c, c + 1, c] (CtxComp.areaChildren _ "a") = _
    simp only [CtxComp.areaChildren, CtxComp.areaChildren.go, if_pos rfl, if_true]
    rw [observed_leafRowAt]
    simp [CtxStore.getAt]
  · show observedCtx [c, c + 1, c] (CtxComp.areaChildren _ "b") = _
    simp only [CtxComp.areaChildren, CtxComp.areaChildren.go, if_pos rfl, if_true,
      if_neg (by decide : ¬ ("a" = "b"))]
    rw [observed_leafRowAt]
    simp [CtxStore.getAt]

/-- Assembling areas from pointwise-corresponding tables collects
correspondingly. -/
theorem collect_assemble (names : List String) (tableH : List (String × HList))
    (tableK : List (String × List String))
    (hrel : ∀ k, tableK.lookup k = (tableH.lookup k).map collectComponentsList) :
    collectComponentsAreas (assembleAreas names tableH) = keptAssemble names tableK := by
  induction names with
  | nil => simp [assembleAreas, keptAssemble, collectComponentsAreas]
  | cons k rest ih =>
    simp only [assembleAreas, keptAssemble, collectComponentsAreas, ih, hrel k]
    cases tableH.lookup k with
    | none => simp [collectComponentsList]
    | some hl => simp

/-- Assembled areas are area-wise well indexed when every table entry is. -/
theorem wellIndexed_assemble (names : List String) (tableH : List (String × HList))
    (hrel : ∀ k hl, tableH.lookup k = some hl → wellIndexedFrom hl 0 = true) :
    wellIndexedAreas (assembleAreas names tableH) = true := by
  induction names with
  | nil => simp [assembleAreas, wellIndexedAreas]
  | cons k rest ih =>
    simp only [assembleAreas, wellIndexedAreas, ih, Bool.and_true]
    cases hl : tableH.lookup k with
    | none => simp [wellIndexedFrom]
    | some l => simpa using hrel k l hl

/-- Renumbering a node's index changes neither its collected keys nor its
well-indexedness nor its paths. -/
theorem setIndex_invariants (h : HComp) (n : Nat) :
    collectComponents (h.setIndex n) = collectComponents h ∧
    wellIndexed (h.setIndex n) = wellIndexed h ∧
    (h.setIndex n).info.indexInArea = n ∧
    allPaths (h.setIndex n) = allPaths h := by
  cases h with
  | node info areas =>
    simp [HComp.setIndex, collectComponents, wellIndexed, HComp.info, allPaths]

mutual
/-- A successfully hydrated component collects exactly the spec-level kept
keys of its data and is well indexed. -/
theorem hydrate_kept_comp (reg : PipeReg) (d : CData) (path : String) (em : Bool)
    (inh : Option String) (ext : String) (rin : Bool) (c : HComp)
    (h : hydrateComponent reg d path em inh ext rin = some c) :
    collectComponents c = keptKeys reg d ∧ wellIndexed c = true :=
  match d with
  | .node key dareas => by
    simp only [hydrateComponent] at h
    cases hreg : reg.components key with
    | none => rw [hreg] at h; simp at h
    | some tmpl =>
      rw [hreg] at h
      simp only [Option.some.injEq] at h
      subst h
      have htab := hydrate_kept_table reg dareas (path ++ ".") em inh ext
      constructor
      · simp only [collectComponents, keptKeys, hreg, HComp.info]
        congr 1
        exact collect_assemble (reg.meta key) _ _ (fun k => (htab k).1)
      · simp only [wellIndexed, keptKeys, hreg]
        exact wellIndexed_assemble (reg.meta key) _ (fun k hl hh => (htab k).2 hl hh)

/-- The hydrated table and the kept-keys table agree pointwise, and every
hydrated area list is well indexed from zero. -/
theorem hydrate_kept_table (reg : PipeReg) (dareas : CDAreas) (pre : String) (em : Bool)
    (inh : Option String) (ext : String) :
    ∀ k, (keptTable reg dareas).lookup k
        = ((hydrateTable reg dareas pre em inh ext).lookup k).map collectComponentsList ∧
      (∀ hl, (hydrateTable reg dareas pre em inh ext).lookup k = some hl →
        wellIndexedFrom hl 0 = true) :=
  match dareas with
  | .nil => by intro k; simp [keptTable, hydrateTable, List.lookup]
  | .cons k0 cs rest => by
    intro k
    have hkids := hydrate_kept_list reg cs pre k0 0 0 em inh ext
    have ihrest := hydrate_kept_table reg rest pre em inh ext k
    simp only [keptTable, hydrateTable, List.lookup]
    by_cases hk : k = k0
    · have hb : (k == k0) = true := by simp [hk]
      rw [hb]
      refine ⟨by simp [hkids.1], ?_⟩
      intro hl hh
      simp only [if_pos rfl, Option.some.injEq] at hh
      subst hh
      exact hkids.2
    · have hb : (k == k0) = false := by simp [hk]
      rw [hb]
      exact ihrest

/-- Hydrating the children of one area collects the kept keys of its raw
children and numbers the survivors consecutively from the running
count. -/
theorem hydrate_kept_list (reg : PipeReg) (cs : CDList) (pre k : String) (i survivors : Nat)
    (em : Bool) (inh : Option String) (ext : String) :
    collectComponentsList (hydrateKids reg cs pre k i survivors em inh ext)
        = keptList reg cs ∧
      wellIndexedFrom (hydrateKids reg cs pre k i survivors em inh ext) survivors = true :=
  match cs with
  | .nil => by simp [hydrateKids, keptList, collectComponentsList, wellIndexedFrom]
  | .cons c rest => by
    simp only [hydrateKids, keptList]
    cases hc : hydrateComponent reg c (pre ++ "areas." ++ k ++ "." ++ natStr i) em inh ext
        inh.isSome with
    | none =>
      have ih := hydrate_kept_list reg rest pre k (i + 1) survivors em inh ext
      have hdrop : keptKeys reg c = [] := by
        cases c with
        | node ckey careas =>
          simp only [hydrateComponent] at hc
          cases hreg : reg.components ckey with
          | none => simp [keptKeys, hreg]
          | some tmpl => rw [hreg] at hc; simp at hc
      rw [hdrop]
      simpa using ih
    | some hcomp =>
      have ih := hydrate_kept_list reg rest pre k (i + 1) (survivors + 1) em inh ext
      have hcc := hydrate_kept_comp reg c (pre ++ "areas." ++ k ++ "." ++ natStr i) em inh ext
        inh.isSome hcomp hc
      have hset := setIndex_invariants hcomp survivors
      constructor
      · simp only [collectComponentsList, hset.1, hcc.1, ih.1]
      · simp only [wellIndexedFrom, hset.2.2.1, hset.2.1, hcc.2, ih.2, beq_self_eq_true]
        simp
end

/-- C4: unregistered-template semantics of hydration.  Hydration of a page
throws exactly when the page's own template key has no registered Page;
on success the hydrated tree consists precisely of the nodes whose own and
whose ancestors' component template keys are registered (an unregistered
node is dropped together with its entire subtree, while hydration itself
succeeds), and every area of every node numbers its surviving children
contiguously 0, 1, 2, ... in order, which is what makes the stored sibling
metadata correct.  The dropped node produces a console warning in the
source, which has no observable effect here. -/
theorem c4_unregistered_templates (reg : PipeReg) (pd : CData) (em : Bool) (ext : String) :
    ((∃ e, hydratePage reg pd em ext = .error e) ↔ reg.pages pd.templateKey = none) ∧
    (∀ page, hydratePage reg pd em ext = .ok page →
      collectComponents page = keptKeysPage reg pd ∧ wellIndexed page = true) := by
  cases pd with
  | node key dareas =>
    constructor
    · simp only [CData.templateKey]
      cases hp : reg.pages key with
      | none => simp [hydratePage, hp]
      | some tmpl => simp [hydratePage, hp]
    · intro page h
      simp only [hydratePage] at h
      cases hp : reg.pages key with
      | none => rw [hp] at h; simp at h
      | some tmpl =>
        rw [hp] at h
        simp only [Except.ok.injEq] at h
        subst h
        have htab := hydrate_kept_table reg dareas "" em none ext
        constructor
        · simp only [collectComponents, keptKeysPage, HComp.info]
          congr 1
          exact collect_assemble (reg.meta key) _ _ (fun k => (htab k).1)
        · simp only [wellIndexed]
          exact wellIndexed_assemble (reg.meta key) _ (fun k hl hh => (htab k).2 hl hh)

/-- C4 witness: at the dropped-template scenario the unregistered middle
child and its registered descendant are omitted, the survivors are
numbered 0 and 1, and hydrating the same data against a registry missing
the page template throws. -/
theorem c4_unregistered_templates_witness :
    collectComponents (okPage (hydratePage c4Reg c4Data false "html"))
        = keptKeysPage c4Reg c4Data ∧
    wellIndexed (okPage (hydratePage c4Reg c4Data false "html")) = true ∧
    keptKeysPage c4Reg c4Data = ["pk4", "key1", "key3"] ∧
    (∃ e, hydratePage c5Reg c4Data false "html" = .error e) :=
  have h := (c4_unregistered_templates c4Reg c4Data false "html").2
    (okPage (hydratePage c4Reg c4Data false "html")) rfl
  ⟨h.1, h.2, rfl, (c4_unregistered_templates c5Reg c4Data false "html").1.mpr rfl⟩

/-- dotSplit never returns an empty segment list. -/
theorem dotSplit_ne_nil (l : List Char) : dotSplit l ≠ [] := by
  cases l with
  | nil => simp [dotSplit]
  | cons c cs =>
    simp only [dotSplit]
    by_cases hc : c = '.'
    · simp [hc]
    · simp only [hc, if_false]
      cases dotSplit cs <;> simp

/-- dotSplit distributes over a dot in the middle. -/
theorem dotSplit_append (x y : List Char) :
    dotSplit (x ++ '.' :: y) = dotSplit x ++ dotSplit y := by
  induction x with
  | nil => simp [dotSplit]
  | cons c x ih =>
    by_cases hc : c = '.'
    · subst hc
      simp [dotSplit, ih]
    · simp only [List.cons_append, dotSplit, hc, if_false, List.append_eq]
      rw [ih]
      cases hx : dotSplit x with
      | nil => exact absurd hx (dotSplit_ne_nil x)
      | cons s r => simp

/-- A dot-free character list is its own single segment. -/
theorem dotSplit_dotFree (l : List Char) (h : dotFree l) : dotSplit l = [l] := by
  induction l with
  | nil => simp [dotSplit]
  | cons c cs ih =>
    have hc : c ≠ '.' := fun hh => h (by simp [dotFree, hh])
    have hcs : dotFree cs := fun hh => h (by simp [dotFree]; right; exact hh)
    simp [dotSplit, hc, ih hcs]

/-- Decimal digit characters are never the separator. -/
theorem digitChar10_ne_dot : ∀ d : Nat, digitChar10 d ≠ '.'
  | 0 => by decide
  | 1 => by decide
  | 2 => by decide
  | 3 => by decide
  | 4 => by decide
  | 5 => by decide
  | 6 => by decide
  | 7 => by decide
  | 8 => by decide
  | 9 => by decide
  | d + 10 => by rw [show digitChar10 (d + 10) = '0' from rfl]; decide

/-- Decimal renderings are dot free. -/
theorem natDigitsGo_dotFree (fuel n : Nat) : dotFree (natDigitsGo fuel n) := by
  induction fuel generalizing n with
  | zero => simp [natDigitsGo, dotFree]
  | succ fuel ih =>
    simp only [natDigitsGo]
    by_cases h : n < 10
    · simp only [h, if_true, dotFree, List.mem_singleton]
      intro hh
      exact digitChar10_ne_dot n hh.symm
    · simp only [h, if_false]
      intro hh
      rcases List.mem_append.mp hh with h1 | h1
      · exact ih (n / 10) h1
      · exact digitChar10_ne_dot (n % 10) (List.mem_singleton.mp h1).symm

/-- The digits of a natural number are dot free. -/
theorem natDigits_dotFree (n : Nat) : dotFree (natDigits n) := natDigitsGo_dotFree (n + 1) n

/-- charVal inverts digitChar10 below ten. -/
theorem charVal_digitChar10 (n : Nat) (h : n < 10) : charVal (digitChar10 n) = n := by
  interval_cases n <;> decide

/-- Parsing after appending one digit. -/
theorem parseDigits_append_one (l : List Char) (c : Char) :
    parseDigits (l ++ [c]) = 10 * parseDigits l + charVal c := by
  simp [parseDigits, List.foldl_append]

/-- Parsing inverts the decimal rendering, given enough fuel. -/
theorem parseDigits_natDigitsGo (fuel : Nat) :
    ∀ n, n < fuel → parseDigits (natDigitsGo fuel n) = n := by
  induction fuel with
  | zero => intro n h; omega
  | succ fuel ih =>
    intro n h
    simp only [natDigitsGo]
    by_cases h10 : n < 10
    · simp [h10, parseDigits, charVal_digitChar10 n h10]
    · simp only [h10, if_false]
      rw [parseDigits_append_one]
      have hdiv : n / 10 < fuel := by
        have := Nat.div_lt_self (by omega : 0 < n) (by omega : 1 < 10)
        omega
      rw [ih (n / 10) hdiv, charVal_digitChar10 (n % 10) (Nat.mod_lt n (by omega))]
      omega

/-- Decimal rendering is injective. -/
theorem natDigits_inj (i j : Nat) (h : natDigits i = natDigits j) : i = j := by
  have hi := parseDigits_natDigitsGo (i + 1) i (by omega)
  have hj := parseDigits_natDigitsGo (j + 1) j (by omega)
  rw [show natDigitsGo (i + 1) i = natDigits i from rfl] at hi
  rw [show natDigitsGo (j + 1) j = natDigits j from rfl] at hj
  rw [h] at hi
  omega

/-- The token list of a child path: the parent prefix contributes base and
the suffix contributes the area triple literally. -/
theorem tok_childPath (pre : String) (base : List (List Char)) (k : String) (i : Nat)
    (hpre : ∀ x, dotSplit (pre.data ++ x) = base ++ dotSplit x)
    (hk : dotFreeStr k) :
    tok (pre ++ "areas." ++ k ++ "." ++ natStr i)
      = base ++ ["areas".data, k.data, natDigits i] := by
  have hdata : (pre ++ "areas." ++ k ++ "." ++ natStr i).data
      = pre.data ++ ("areas".data ++ '.' :: (k.data ++ '.' :: natDigits i)) := by
    simp [String.data_append, natStr, List.append_assoc]
  rw [tok, hdata, hpre]
  rw [dotSplit_append "areas".data (k.data ++ '.' :: natDigits i)]
  rw [dotSplit_append k.data (natDigits i)]
  rw [dotSplit_dotFree "areas".data (by decide)]
  rw [dotSplit_dotFree k.data hk]
  rw [dotSplit_dotFree (natDigits i) (natDigits_dotFree i)]
  simp

/-- The child-path prefix of a node at path p contributes exactly the
token list of p. -/
theorem hpre_of_path (p : String) :
    ∀ x, dotSplit ((p ++ ".").data ++ x) = tok p ++ dotSplit x := by
  intro x
  have hd : (p ++ ".").data ++ x = p.data ++ '.' :: x := by
    simp [String.data_append]
  rw [hd]
  exact dotSplit_append p.data x

/-- The empty prefix of root children contributes no tokens. -/
theorem hpre_of_root : ∀ x, dotSplit (("" : String).data ++ x) = [] ++ dotSplit x := by
  intro x
  rfl

/-- Paths collected over assembled areas are pairwise distinct and each
carries the area triple of one declared name, provided the declared names
are distinct and dot free and each table entry satisfies the per-area
shape. -/
theorem paths_assemble (names : List String) (table : List (String × HList))
    (base : List (List Char)) (hnn : names.Nodup) (hnd : ∀ a ∈ names, dotFreeStr a)
    (htab : ∀ k, dotFreeStr k → ∀ hl, table.lookup k = some hl →
      (allPathsList hl).Nodup ∧
      ∀ q ∈ allPathsList hl, ∃ j e,
        tok q = base ++ ["areas".data, k.data, natDigits j] ++ e) :
    (allPathsAreas (assembleAreas names table)).Nodup ∧
    ∀ q ∈ allPathsAreas (assembleAreas names table),
      ∃ k, k ∈ names ∧ ∃ j e, tok q = base ++ ["areas".data, k.data, natDigits j] ++ e := by
  induction names with
  | nil => simp [assembleAreas, allPathsAreas]
  | cons k rest ih =>
    have hkd : dotFreeStr k := hnd k (by simp)
    have hrest := ih (List.Nodup.of_cons hnn) (fun a ha => hnd a (by simp [ha]))
    simp only [assembleAreas, allPathsAreas]
    have hblk : (allPathsList ((table.lookup k).getD .nil)).Nodup ∧
        ∀ q ∈ allPathsList ((table.lookup k).getD .nil),
          ∃ j e, tok q = base ++ ["areas".data, k.data, natDigits j] ++ e := by
      cases hl : table.lookup k with
      | none => simp [allPathsList]
      | some hlv => simpa using htab k hkd hlv hl
    constructor
    · rw [List.nodup_append]
      refine ⟨hblk.1, hrest.1, ?_⟩
      intro q hq hq2
      obtain ⟨j, e, hsh⟩ := hblk.2 q hq
      obtain ⟨k2, hk2mem, j2, e2, hsh2⟩ := hrest.2 q hq2
      have hkne : k2 ≠ k := fun hh => (List.nodup_cons.mp hnn).1 (hh ▸ hk2mem)
      rw [hsh] at hsh2
      rw [List.append_assoc, List.append_assoc] at hsh2
      have hcan := List.append_cancel_left hsh2
      simp only [List.cons_append, List.nil_append, List.cons.injEq] at hcan
      exact hkne (String.ext hcan.2.1.symm)
    · intro q hq
      rcases List.mem_append.mp hq with h1 | h1
      · obtain ⟨j, e, hsh⟩ := hblk.2 q h1
        exact ⟨k, by simp, j, e, hsh⟩
      · obtain ⟨k2, hmem, j2, e2, hsh2⟩ := hrest.2 q h1
        exact ⟨k2, by simp [hmem], j2, e2, hsh2⟩

mutual
/-- A successfully hydrated component has pairwise-distinct subtree paths,
and each of them extends the token list of the component's own path. -/
theorem paths_comp (reg : PipeReg)
    (hnodup : ∀ k, (reg.meta k).Nodup) (hdot : ∀ k a, a ∈ reg.meta k → dotFreeStr a)
    (d : CData) (p : String) (em : Bool) (inh : Option String) (ext : String) (rin : Bool)
    (c : HComp) (h : hydrateComponent reg d p em inh ext rin = some c) :
    (allPaths c).Nodup ∧ ∀ q ∈ allPaths c, ∃ e, tok q = tok p ++ e :=
  match d with
  | .node key dareas => by
    simp only [hydrateComponent] at h
    cases hreg : reg.components key with
    | none => rw [hreg] at h; simp at h
    | some tmpl =>
      rw [hreg] at h
      simp only [Option.some.injEq] at h
      subst h
      have htab := fun (k : String) (hk : dotFreeStr k) =>
        paths_table reg hnodup hdot dareas (p ++ ".") em inh ext (tok p) (hpre_of_path p)
          k hk
      have hasm := paths_assemble (reg.meta key)
        (hydrateTable reg dareas (p ++ ".") em inh ext) (tok p)
        (hnodup key) (fun a ha => hdot key a ha) htab
      simp only [allPaths, HComp.info, initInfo]
      constructor
      · rw [List.nodup_cons]
        refine ⟨?_, hasm.1⟩
        intro hmem
        obtain ⟨k2, _, j, e, hsh⟩ := hasm.2 p hmem
        have hlen := congrArg List.length hsh
        simp only [List.length_append, List.length_cons] at hlen
        omega
      · intro q hq
        rcases List.mem_cons.mp hq with rfl | hq2
        · exact ⟨[], by simp⟩
        · obtain ⟨k2, _, j, e, hsh⟩ := hasm.2 q hq2
          exact ⟨["areas".data, k2.data, natDigits j] ++ e, by
            rw [hsh]; simp [List.append_assoc]⟩

/-- Every area list of the hydrated table satisfies the per-area path
shape for its (dot-free) data key, with distinct paths. -/
theorem paths_table (reg : PipeReg)
    (hnodup : ∀ k, (reg.meta k).Nodup) (hdot : ∀ k a, a ∈ reg.meta k → dotFreeStr a)
    (dareas : CDAreas) (pre : String) (em : Bool) (inh : Option String) (ext : String)
    (base : List (List Char))
    (hpre : ∀ x, dotSplit (pre.data ++ x) = base ++ dotSplit x) :
    ∀ k, dotFreeStr k → ∀ hl,
      (hydrateTable reg dareas pre em inh ext).lookup k = some hl →
      (allPathsList hl).Nodup ∧
      ∀ q ∈ allPathsList hl, ∃ j e,
        tok q = base ++ ["areas".data, k.data, natDigits j] ++ e :=
  match dareas with
  | .nil => by intro k hk hl h; simp [hydrateTable, List.lookup] at h
  | .cons k0 cs rest => by
    intro k hk hl h
    simp only [hydrateTable, List.lookup] at h
    by_cases hkk : k = k0
    · subst hkk
      rw [show (k == k) = true by simp] at h
      simp only [Option.some.injEq] at h
      subst h
      have hp := paths_list reg hnodup hdot cs pre k 0 0 em inh ext base hpre hk
      exact ⟨hp.1, fun q hq => by
        obtain ⟨j, e, _, hsh⟩ := hp.2 q hq
        exact ⟨j, e, hsh⟩⟩
    · rw [show (k == k0) = false by simp [hkk]] at h
      exact paths_table reg hnodup hdot rest pre em inh ext base hpre k hk hl h

/-- Hydrating the children of one area yields distinct paths, each bearing
the area triple with a data index at least the running index. -/
theorem paths_list (reg : PipeReg)
    (hnodup : ∀ k, (reg.meta k).Nodup) (hdot : ∀ k a, a ∈ reg.meta k → dotFreeStr a)
    (cs : CDList) (pre k : String) (i surv : Nat) (em : Bool) (inh : Option String)
    (ext : String) (base : List (List Char))
    (hpre : ∀ x, dotSplit (pre.data ++ x) = base ++ dotSplit x) (hk : dotFreeStr k) :
    (allPathsList (hydrateKids reg cs pre k i surv em inh ext)).Nodup ∧
    ∀ q ∈ allPathsList (hydrateKids reg cs pre k i surv em inh ext),
      ∃ j e, i ≤ j ∧ tok q = base ++ ["areas".data, k.data, natDigits j] ++ e :=
  match cs with
  | .nil => by simp [hydrateKids, allPathsList]
  | .cons c rest => by
    simp only [hydrateKids]
    cases hc : hydrateComponent reg c (pre ++ "areas." ++ k ++ "." ++ natStr i) em inh ext
        inh.isSome with
    | none =>
      have ih := paths_list reg hnodup hdot rest pre k (i + 1) surv em inh ext base hpre hk
      refine ⟨ih.1, ?_⟩
      intro q hq
      obtain ⟨j, e, hj, hsh⟩ := ih.2 q hq
      exact ⟨j, e, by omega, hsh⟩
    | some hcomp =>
      have ih := paths_list reg hnodup hdot rest pre k (i + 1) (surv + 1) em inh ext base
        hpre hk
      have hcc := paths_comp reg hnodup hdot c (pre ++ "areas." ++ k ++ "." ++ natStr i)
        em inh ext inh.isSome hcomp hc
      have htokc := tok_childPath pre base k i hpre hk
      simp only [allPathsList, (setIndex_invariants hcomp surv).2.2.2]
      constructor
      · rw [List.nodup_append]
        refine ⟨hcc.1, ih.1, ?_⟩
        intro q hq hq2
        obtain ⟨e, hsh⟩ := hcc.2 q hq
        obtain ⟨j, e2, hj, hsh2⟩ := ih.2 q hq2
        rw [htokc] at hsh
        rw [hsh] at hsh2
        rw [List.append_assoc, List.append_assoc] at hsh2
        have hcan := List.append_cancel_left hsh2
        simp only [List.cons_append, List.nil_append, List.cons.injEq] at hcan
        have hij := natDigits_inj i j hcan.2.2.1
        omega
      · intro q hq
        rcases List.mem_append.mp hq with h1 | h1
        · obtain ⟨e, hsh⟩ := hcc.2 q h1
          rw [htokc] at hsh
          exact ⟨i, e, le_refl i, hsh⟩
        · obtain ⟨j, e2, hj, hsh2⟩ := ih.2 q h1
          exact ⟨j, e2, by omega, hsh2⟩
end

/-- C9 (amended): path uniqueness before inheritance splicing.  When every
declared area-name list of the template metadata is duplicate free and its
names contain no dot (area names containing the path separator could fake
nested positions), the natively hydrated tree assigns pairwise-distinct
paths: each path is the dotted encoding of the node's position, the page
root owning the empty path.  After fetch-phase splicing the property
fails, because every spliced-in component is hydrated at the literal path
inherited (see the counterexample). -/
theorem c9_path_uniqueness (reg : PipeReg) (pd : CData) (em : Bool) (ext : String)
    (page : HComp)
    (hnodup : ∀ k, (reg.meta k).Nodup)
    (hdot : ∀ k a, a ∈ reg.meta k → dotFreeStr a)
    (h : hydratePage reg pd em ext = .ok page) :
    (allPaths page).Nodup := by
  cases pd with
  | node key dareas =>
    simp only [hydratePage] at h
    cases hp : reg.pages key with
    | none => rw [hp] at h; simp at h
    | some tmpl =>
      rw [hp] at h
      simp only [Except.ok.injEq] at h
      subst h
      have htab := fun (k : String) (hk : dotFreeStr k) =>
        paths_table reg hnodup hdot dareas "" em none ext [] hpre_of_root k hk
      have hasm := paths_assemble (reg.meta key) (hydrateTable reg dareas "" em none ext)
        [] (hnodup key) (fun a ha => hdot key a ha) htab
      simp only [allPaths, HComp.info, initInfo]
      rw [List.nodup_cons]
      refine ⟨?_, hasm.1⟩
      intro hmem
      obtain ⟨k2, _, j, e, hsh⟩ := hasm.2 "" hmem
      rw [show tok "" = [[]] from rfl] at hsh
      simp only [List.nil_append, List.cons_append, List.cons.injEq] at hsh
      exact absurd hsh.1.symm (by decide : ("areas".data : List Char) ≠ [])

/-- C9 witness: the amended uniqueness at the dropped-template scenario
(whose tree has a root and two surviving children). -/
theorem c9_path_uniqueness_witness :
    (allPaths (okPage (hydratePage c4Reg c4Data false "html"))).Nodup :=
  c9_path_uniqueness c4Reg c4Data false "html" (okPage (hydratePage c4Reg c4Data false "html"))
    (by intro k; simp only [c4Reg]; split_ifs <;> decide)
    (by
      intro k a ha
      simp only [c4Reg] at ha
      split_ifs at ha
      · simp at ha; subst ha; decide
      · simp at ha; subst ha; decide
      · simp at ha)
    rfl
